import Mathlib

/-!
Verification of the PSA_Sales_Extractor repository (Google Apps Script).

The repository has three source files:
  * `PSA-sales-csv-pdf.gs`  — combined processor `processPsaSales` (record + render)
  * `ingestPsaSales.js`     — record-only processor `ingestPsaSales`
  * `exportPsaSalesToPDFs.js` — render-only processor `exportPsaSalesToPDFs`

Shallow embedding conventions:
  * Strings are Lean `String`/`List Char`; the JavaScript regexes used by the
    code are embedded as executable scanners with JS leftmost-match semantics.
  * JavaScript numbers are modelled exactly: a parsed currency value is either
    `NaN` or a rational (`JsNum`); `Number.EPSILON` is `1 / 2^52`;
    `Math.round x` is `⌊x + 1/2⌋` (this is JS round-half-up semantics,
    including for negative halves).
  * External effects (Gmail, Sheets append, Drive write, PDF conversion,
    UrlFetch) are modelled by per-message / per-url oracles: a `Message`
    carries Booleans saying whether its `sheet.appendRow` call would succeed,
    whether its render-to-PDF + file write pipeline would succeed, and whether
    an unexpected platform exception fires inside the `try` block of
    `parsePsaEmail_`; remote fetching is a function `String → FetchResult`.
  * The spreadsheet, the Drive folder and the hidden `ProcessedPDFs` ledger
    sheet are explicit lists; a run transforms them.
-/

/-! ### JS string primitives -/

/-- The characters matched by the JavaScript regex class `\s` (for the inputs
this program sees: ASCII whitespace). -/
def isWsJs (c : Char) : Bool :=
  c = ' ' || c = '\t' || c = '\n' || c = '\r' || c = '\x0b' || c = '\x0c'

/-- Case-insensitive literal match at the head of the input: returns the rest
of the input after the pattern, or `none`.  Embeds matching a literal regex
fragment under the `i` flag. -/
def stripCI : List Char → List Char → Option (List Char)
  | [], s => some s
  | _ :: _, [] => none
  | p :: ps, c :: cs => if p.toLower = c.toLower then stripCI ps cs else none

/-- Scan the input left to right and return, at the first position where `f`
succeeds, the suffix starting there together with `f`'s result.  This is the
JS leftmost-match rule for an unanchored regex. -/
def scanP {α : Type} (f : List Char → Option α) : List Char → Option (List Char × α)
  | [] => none
  | c :: rest =>
    match f (c :: rest) with
    | some a => some (c :: rest, a)
    | none => scanP f rest

/-- Case-insensitive substring test (used for the `googleusercontent` proxy
pattern). -/
def containsCI (pat s : List Char) : Bool :=
  (scanP (stripCI pat) s).isSome

/-- Collapse every run of `\s` characters to a single space — the
`.replace(/\s+/g, ' ')` step.  The boolean records whether the previous
character belonged to a whitespace run. -/
def collapseWsGo : Bool → List Char → List Char
  | _, [] => []
  | inWs, c :: rest =>
    if isWsJs c then
      if inWs then collapseWsGo true rest else ' ' :: collapseWsGo true rest
    else c :: collapseWsGo false rest

def collapseWs (l : List Char) : List Char := collapseWsGo false l

/-- `String.prototype.trim()` on the whitespace this program sees. -/
def jsTrimList (l : List Char) : List Char :=
  ((l.dropWhile isWsJs).reverse.dropWhile isWsJs).reverse

def jsTrim (s : String) : String := String.mk (jsTrimList s.toList)

/-- `.replace(/\r/g, '')` applied to the plain body before parsing. -/
def stripCR (l : List Char) : List Char := l.filter (fun c => c ≠ '\r')

/-! ### JS number model

`Number(str)` applied to a comma-stripped capture of `[0-9.,]+` yields either
a rational or `NaN`; `Number('') = 0`. -/

inductive JsNum where
  | nan : JsNum
  | val : ℚ → JsNum
deriving DecidableEq

/-- Numeric value of a digit list (most significant first). -/
def digitsVal (ds : List Char) : ℕ :=
  ds.foldl (fun a c => a * 10 + (c.toNat - 48)) 0

/-- `Number(s)` for `s` consisting of digits and dots (commas already
stripped): zero or one dot gives a decimal value, `"."` alone and two or more
dots give `NaN`, the empty string gives `0`. -/
def jsNumber (s : List Char) : JsNum :=
  if s = [] then .val 0
  else
    let intPart := s.takeWhile (fun c => c ≠ '.')
    let rest := s.drop intPart.length
    match rest with
    | [] => .val (digitsVal intPart)
    | _ :: frac =>
      if frac.all Char.isDigit then
        if intPart = [] ∧ frac = [] then .nan
        else .val ((digitsVal intPart : ℚ) + (digitsVal frac : ℚ) / (10 ^ frac.length : ℕ))
      else .nan

/-- `Number(capture.replace(/,/g, ''))` for a `[0-9.,]+` capture. -/
def jsNumberOfCapture (cap : List Char) : JsNum :=
  jsNumber (cap.filter (fun c => c ≠ ','))

/-- `Number.EPSILON = 2⁻⁵²`. -/
def numEpsilon : ℚ := 1 / 4503599627370496

/-- `round2(n) = Math.round((n + Number.EPSILON) * 100) / 100`, the epsilon
adjusted half-up rounding used by both scripts (currency modelled as exact
rationals, so the epsilon nudge carried over from the source is visible). -/
def round2 (q : ℚ) : ℚ := ((⌊(q + numEpsilon) * 100 + 1/2⌋ : ℤ) : ℚ) / 100

/-- `round2` lifted through NaN (`Math.round(NaN) = NaN`). -/
def round2J : JsNum → JsNum
  | .nan => .nan
  | .val q => .val (round2 q)

/-- JS subtraction on possibly-NaN numbers. -/
def JsNum.sub : JsNum → JsNum → JsNum
  | .val a, .val b => .val (a - b)
  | _, _ => .nan

/-! ### The extraction regexes -/

/-- `/(?:PSA|CGC|BGS) CERT\s*([0-9]+)/i` (with the issuer alternatives given
by `pats`, each 8 characters long) tried at the head of `s`: on success,
returns the length of the whole match (`match[0]`) and the digit capture
(`match[1]`). -/
def certAtWith (pats : List (List Char)) (s : List Char) : Option (ℕ × List Char) :=
  match pats.foldr (fun p acc => (stripCI p s).orElse (fun _ => acc)) none with
  | none => none
  | some rest =>
    let ws := rest.takeWhile isWsJs
    let rest2 := rest.drop ws.length
    let ds := rest2.takeWhile Char.isDigit
    if ds = [] then none else some (8 + ws.length + ds.length, ds)

def certPats : List (List Char) :=
  ["PSA CERT".toList, "CGC CERT".toList, "BGS CERT".toList]

/-- The certification alternatives of `exportPsaSalesToPDFs.js`'s
`buildFileName_` (`/(?:PSA|CGC) CERT\s*([0-9]+)/i`, no BGS). -/
def certPatsNoBgs : List (List Char) :=
  ["PSA CERT".toList, "CGC CERT".toList]

/-- Leftmost match of the certification regex: returns `(match[0], match[1])`
as (whole matched text with original casing, digit capture). -/
def certSearchWith (pats : List (List Char)) (body : List Char) :
    Option (List Char × List Char) :=
  (scanP (certAtWith pats) body).map (fun p => (p.1.take p.2.1, p.2.2))

def certSearch (body : List Char) : Option (List Char × List Char) :=
  certSearchWith certPats body

/-- `/<label>\s*\$([0-9.,]+)/i` tried at the head of `s`: returns the
capture. -/
def moneyAt (label : List Char) (s : List Char) : Option (List Char) :=
  match stripCI label s with
  | none => none
  | some r1 =>
    match r1.dropWhile isWsJs with
    | '$' :: r3 =>
      let cap := r3.takeWhile (fun c => c.isDigit || c = '.' || c = ',')
      if cap = [] then none else some cap
    | _ => none

/-- Leftmost capture of `/Sale Price\s*\$([0-9.,]+)/i`. -/
def salePriceSearch (body : List Char) : Option (List Char) :=
  (scanP (moneyAt "Sale Price".toList) body).map (fun p => p.2)

/-- Leftmost capture of `/Proceeds\s*\$([0-9.,]+)/i`. -/
def proceedsSearch (body : List Char) : Option (List Char) :=
  (scanP (moneyAt "Proceeds".toList) body).map (fun p => p.2)

/-! The `ingestPsaSales.js` listing-ended regex
`/(?:Listing\s*)?Ended\s*[\s\S]*?([A-Za-z]{3}\s\d{1,2},?\s\d{1,2}:\d{2}\s[AP]M(?:\s[A-Z]{2,4})?)/i`. -/

/-- One or two digits followed by the continuation `k`; tries the greedy
two-digit reading first, then backtracks to one digit (JS `\d{1,2}`). -/
def digits12 (k : List Char → Option ℕ) : List Char → Option ℕ
  | a :: b :: rest =>
    if a.isDigit then
      if b.isDigit then
        match k rest with
        | some n => some (2 + n)
        | none => (k (b :: rest)).map (fun n => 1 + n)
      else (k (b :: rest)).map (fun n => 1 + n)
    else none
  | [a] => if a.isDigit then (k []).map (fun n => 1 + n) else none
  | [] => none

/-- The date-time capture
`[A-Za-z]{3}\s\d{1,2},?\s\d{1,2}:\d{2}\s[AP]M(?:\s[A-Z]{2,4})?` tried at the
head of `s` (case-insensitively); returns the matched text. -/
def dateAt (s : List Char) : Option (List Char) :=
  match s with
  | m1 :: m2 :: m3 :: rest =>
    if m1.isAlpha ∧ m2.isAlpha ∧ m3.isAlpha then
      match rest with
      | w1 :: rest2 =>
        if isWsJs w1 then
          let afterDay : List Char → Option ℕ := fun t =>
            -- `,?\s` then `\d{1,2}:\d{2}\s[AP]M(?:\s[A-Z]{2,4})?`
            let tail : List Char → Option ℕ := fun u =>
              match u with
              | w2 :: u2 =>
                if isWsJs w2 then
                  let afterHour : List Char → Option ℕ := fun v =>
                    match v with
                    | ':' :: d1 :: d2 :: v2 =>
                      if d1.isDigit ∧ d2.isDigit then
                        match v2 with
                        | w3 :: ap :: em :: v3 =>
                          if isWsJs w3 ∧ (ap.toLower = 'a' ∨ ap.toLower = 'p') ∧
                              em.toLower = 'm' then
                            -- optional `(?:\s[A-Z]{2,4})?`, greedy
                            match v3 with
                            | w4 :: v4 =>
                              if isWsJs w4 then
                                let tz := (v4.takeWhile Char.isAlpha).take 4
                                if 2 ≤ tz.length then some (6 + 1 + tz.length)
                                else some 6
                              else some 6
                            | [] => some 6
                          else none
                        | _ => none
                      else none
                    | _ => none
                  (digits12 afterHour u2).map (fun n => 1 + n)
                else none
              | [] => none
            match t with
            | ',' :: t2 => (tail t2).map (fun n => 1 + n)
            | _ => tail t
          match digits12 afterDay rest2 with
          | some n => some (s.take (3 + 1 + n))
          | none => none
        else none
      | [] => none
    else none
  | _ => none

/-- `(?:Listing\s*)?Ended` tried at the head: returns the rest after `Ended`.
(When the optional `Listing\s*` branch matches but `Ended` does not follow,
the regex falls back to matching `Ended` directly at the same start, which
then fails because the text starts with `Listing` — both behaviours yield
`none` here.) -/
def endedHeadAt (s : List Char) : Option (List Char) :=
  match stripCI "Listing".toList s with
  | some r =>
    match stripCI "Ended".toList (r.dropWhile isWsJs) with
    | some r2 => some r2
    | none => stripCI "Ended".toList s
  | none => stripCI "Ended".toList s

/-- The whole ended regex tried at the head of `s`: after `(?:Listing\s*)?Ended`,
the lazy `[\s\S]*?` selects the earliest following date-time capture. -/
def endedAt (s : List Char) : Option (List Char) :=
  match endedHeadAt s with
  | none => none
  | some rest => (scanP dateAt rest).map (fun p => p.2)

/-- Leftmost capture of the listing-ended regex over the whole body. -/
def endedSearch (body : List Char) : Option (List Char) :=
  (scanP endedAt body).map (fun p => p.2)

/-- The text captured by ``new RegExp(`${certMatch[0]}\\s*([\\s\\S]*?)\\s*Sale Price`, 'im')``:
at the leftmost position where the matched certification text occurs
(case-insensitively) and is eventually followed by `Sale Price`, the text up
to the first following `Sale Price`.  The `\s*` boundary groups are immaterial
after the collapse/trim the caller applies. -/
def takeUntilCI (pat : List Char) : List Char → Option (List Char)
  | [] => none
  | c :: rest =>
    match stripCI pat (c :: rest) with
    | some _ => some []
    | none => (takeUntilCI pat rest).map (fun t => c :: t)

def titleCapture (whole body : List Char) : Option (List Char) :=
  (scanP (fun s => (stripCI whole s).bind (takeUntilCI "Sale Price".toList)) body).map
    (fun p => p.2)

/-! ### Messages, records, sheet rows -/

/-- A Gmail message as seen through the interface the scripts use, together
with the oracles for the external effects attempted on its behalf:
`appendOk` — would `sheet.appendRow` succeed for this message (the call is
not wrapped in a `try` by either processor); `renderOk` — would the
`renderMessageToPDF_` / `folder.createFile(...).setName(...)` pipeline
succeed; `parseFault` — does an unexpected platform exception fire inside the
`try` block of `parsePsaEmail_` (the only way that function returns null). -/
structure Message where
  id : String
  subject : String
  plainBody : String
  /-- `Utilities.formatDate(msg.getDate(), tz, 'yyyy-MM-dd')`. -/
  dateDay : String
  appendOk : Bool
  renderOk : Bool
  parseFault : Bool
deriving DecidableEq

/-- The record built by `parsePsaEmail_` in `PSA-sales-csv-pdf.gs` (its
`saleDate` is always the message's own date, formatted to day granularity). -/
structure SaleRecordGs where
  certNumber : Option String
  saleDate : String
  cardTitle : String
  soldAmount : Option JsNum
  feesPaid : Option JsNum
  netProceeds : Option JsNum
deriving DecidableEq

/-- The record built by `parsePsaEmail_` in `ingestPsaSales.js` (its
`saleDate` comes from the listing-ended capture and is null when that capture
is missing). -/
structure SaleRecordJs where
  certNumber : Option String
  saleDate : Option String
  cardTitle : String
  soldAmount : Option JsNum
  feesPaid : Option JsNum
  netProceeds : Option JsNum
deriving DecidableEq

/-- The `cardTitle` computation shared by both parsers: the span between the
matched certification text and the following `Sale Price` label, collapsed
and trimmed, falling back to the subject. -/
def cardTitleOf (certM : Option (List Char × List Char)) (body : List Char)
    (subject : String) : String :=
  match certM with
  | some (whole, _) =>
    match titleCapture whole body with
    | some cap => String.mk (jsTrimList (collapseWs cap))
    | none => subject
  | none => subject

/-- Field extraction of `PSA-sales-csv-pdf.gs` (lines 159–209), except for the
`try`/`catch`: body text with `\r` stripped, the three regexes, the warnings
pushed for absent fields, `feesPaid = round2(sold − net)` when both present,
and a final `round2` applied to each present amount.  Returns the record
together with the warning list. -/
def parsePsaEmailGsCore (m : Message) : SaleRecordGs × List String :=
  let body := stripCR m.plainBody.toList
  let certM := certSearch body
  let saleM := salePriceSearch body
  let procM := proceedsSearch body
  let certNumber := certM.map (fun p => String.mk p.2)
  let w1 : List String := if certNumber = none then ["Certification Number"] else []
  let soldAmount := saleM.map jsNumberOfCapture
  let w2 : List String := if soldAmount = none then ["Sale Price"] else []
  let netProceeds := procM.map jsNumberOfCapture
  let w3 : List String := if netProceeds = none then ["Proceeds"] else []
  let feesPaid : Option JsNum :=
    match soldAmount, netProceeds with
    | some a, some b => some (round2J (a.sub b))
    | _, _ => none
  (⟨certNumber, m.dateDay, cardTitleOf certM body m.subject,
    soldAmount.map round2J, feesPaid.map round2J, netProceeds.map round2J⟩,
   w1 ++ w2 ++ w3)

/-- `parsePsaEmail_` of `PSA-sales-csv-pdf.gs`: null exactly when the
unexpected-exception oracle fires (the `catch` branch). -/
def parsePsaEmailGs (m : Message) : Option SaleRecordGs :=
  if m.parseFault then none else some (parsePsaEmailGsCore m).1

/-- Field extraction of `ingestPsaSales.js` (lines 59–118), except for the
`try`/`catch`.  `fmtDate` abstracts the platform call
`Utilities.formatDate(new Date(str), tz, 'yyyy-MM-dd')`; the
`.replace(',', '')` (first comma only) applied to the capture is explicit. -/
def stripFirstComma : List Char → List Char
  | [] => []
  | ',' :: rest => rest
  | c :: rest => c :: stripFirstComma rest

def parsePsaEmailJsCore (fmtDate : String → String) (m : Message) :
    SaleRecordJs × List String :=
  let body := stripCR m.plainBody.toList
  let certM := certSearch body
  let saleM := salePriceSearch body
  let procM := proceedsSearch body
  let endedM := endedSearch body
  let certNumber := certM.map (fun p => String.mk p.2)
  let w1 : List String := if certNumber = none then ["Certification Number"] else []
  let soldAmount := saleM.map jsNumberOfCapture
  let w2 : List String := if soldAmount = none then ["Sale Price"] else []
  let netProceeds := procM.map jsNumberOfCapture
  let w3 : List String := if netProceeds = none then ["Proceeds"] else []
  let saleDateStr := endedM.map String.mk
  let w4 : List String := if saleDateStr = none then ["Listing Ended Date"] else []
  let feesPaid : Option JsNum :=
    match soldAmount, netProceeds with
    | some a, some b => some (round2J (a.sub b))
    | _, _ => none
  let saleDate := saleDateStr.map (fun s => fmtDate (String.mk (stripFirstComma s.toList)))
  (⟨certNumber, saleDate, cardTitleOf certM body m.subject,
    soldAmount.map round2J, feesPaid.map round2J, netProceeds.map round2J⟩,
   w1 ++ w2 ++ w3 ++ w4)

/-- `parsePsaEmail_` of `ingestPsaSales.js`. -/
def parsePsaEmailJs (fmtDate : String → String) (m : Message) : Option SaleRecordJs :=
  if m.parseFault then none else some (parsePsaEmailJsCore fmtDate m).1

/-! ### Filenames -/

/-- The filesystem-unsafe class `[\\/:*?"<>|#]` of `buildFileName_`. -/
def forbiddenFileChar (c : Char) : Bool :=
  c = '\\' || c = '/' || c = ':' || c = '*' || c = '?' || c = '"' ||
    c = '<' || c = '>' || c = '|' || c = '#'

/-- `.replace(/[\\/:*?"<>|#]+/g, ' ')`: each run of forbidden characters
becomes a single space. -/
def replaceForbGo : Bool → List Char → List Char
  | _, [] => []
  | inRun, c :: rest =>
    if forbiddenFileChar c then
      if inRun then replaceForbGo true rest else ' ' :: replaceForbGo true rest
    else c :: replaceForbGo false rest

/-- The cleaned subject: forbidden runs to spaces, whitespace collapsed,
trimmed, then `.substring(0, 120)`. -/
def cleanSubject (subj : List Char) : List Char :=
  (jsTrimList (collapseWs (replaceForbGo false subj))).take 120

/-- `buildFileName_` parameterised by the certification alternatives (the
`.gs` version accepts BGS, the `.js` version does not). -/
def buildFileNameWith (pats : List (List Char)) (m : Message) : String :=
  let subj := if m.subject = "" then "No Subject" else m.subject
  let body := m.plainBody.toList
  match certSearchWith pats body with
  | some (_, ds) => m.dateDay ++ " - PSA Sale Cert " ++ String.mk ds ++ ".pdf"
  | none => m.dateDay ++ " - " ++ String.mk (cleanSubject subj.toList) ++ ".pdf"

/-- `buildFileName_` of `PSA-sales-csv-pdf.gs` (lines 229–247). -/
def buildFileNameGs (m : Message) : String := buildFileNameWith certPats m

/-- `buildFileName_` of `exportPsaSalesToPDFs.js` (lines 55–74). -/
def buildFileNameJs (m : Message) : String := buildFileNameWith certPatsNoBgs m

/-! ### Stores, ledgers -/

/-- One data row of the `PSA Sales` sheet, in the fixed column order used by
`appendRow`; `msgId` is the 7th (dedup-key) column.  The header row is
implicit (both `loadExistingMessageIds_` implementations start reading at
row 2). -/
structure SheetRow where
  cert : Option String
  saleDate : Option String
  title : String
  sold : Option JsNum
  fees : Option JsNum
  net : Option JsNum
  msgId : String
deriving DecidableEq

def rowOfGs (r : SaleRecordGs) (msgId : String) : SheetRow :=
  ⟨r.certNumber, some r.saleDate, r.cardTitle, r.soldAmount, r.feesPaid,
   r.netProceeds, msgId⟩

def rowOfJs (r : SaleRecordJs) (msgId : String) : SheetRow :=
  ⟨r.certNumber, r.saleDate, r.cardTitle, r.soldAmount, r.feesPaid,
   r.netProceeds, msgId⟩

/-- A file created in the Drive folder; `srcId` records which message it was
rendered from (provenance, used only by the specification). -/
structure PdfFile where
  srcId : String
  name : String
deriving DecidableEq

/-- JS `Set` of strings modelled as a duplicate-free list in insertion
order. -/
def setAdd (l : List String) (x : String) : List String :=
  if l.contains x then l else l ++ [x]

/-- `loadExistingMessageIds_`: scan the 7th column of the data rows; each
value is trimmed and added when non-empty. -/
def loadExistingMessageIds (rows : List SheetRow) : List String :=
  rows.foldl
    (fun s r => let v := jsTrim r.msgId; if v = "" then s else setAdd s v) []

/-- `loadProcessedIds_`: read the `ProcessedPDFs` ledger column into a set,
skipping falsy (empty) cells. -/
def loadProcessedIds (ledgerRows : List String) : List String :=
  ledgerRows.foldl (fun s v => if v = "" then s else setAdd s v) []

/-! ### The combined processor `processPsaSales` (PSA-sales-csv-pdf.gs) -/

def MAX_PER_RUN : ℕ := 100

/-- The external state the combined processor reads and writes: the sales
sheet's data rows, the Drive folder's files, and the data rows of the
persisted `ProcessedPDFs` ledger sheet. -/
structure World where
  rows : List SheetRow
  files : List PdfFile
  ledgerRows : List String
deriving DecidableEq

/-- The in-run state of the processing loop: the stores being mutated, the
two in-memory ledgers, and the four run counters. -/
structure LoopSt where
  rows : List SheetRow
  files : List PdfFile
  existing : List String
  processed : List String
  sales : ℕ
  pdfs : ℕ
  scanned : ℕ
  skipped : ℕ
deriving DecidableEq

/-- The record action for one message (`processPsaSales` lines 85–115):
nothing when the id is already recorded or the parse returned null; otherwise
append the row, add the id to the in-memory set, bump the counter — and
`none` when the unguarded `sheet.appendRow` call throws. -/
def stepRecord (s : LoopSt) (m : Message) : Option LoopSt :=
  if s.existing.contains m.id then some s
  else
    match parsePsaEmailGs m with
    | none => some s
    | some r =>
      if m.appendOk then
        some { s with
                rows := s.rows ++ [rowOfGs r m.id]
                existing := setAdd s.existing m.id
                sales := s.sales + 1 }
      else none

/-- The render action for one message (`exportSinglePDF_`, lines 214–227):
everything — render, filename, `createFile`, `setName` — is inside its
`try`, and the id is added to the set only after the write succeeded. -/
def stepRender (s : LoopSt) (m : Message) (hadPDF : Bool) : LoopSt :=
  if hadPDF then s
  else if m.renderOk then
    { s with
        files := s.files ++ [⟨m.id, buildFileNameGs m⟩]
        processed := setAdd s.processed m.id
        pdfs := s.pdfs + 1 }
  else s

inductive StepRes where
  | ok : LoopSt → StepRes
  | abort : LoopSt → StepRes
deriving DecidableEq

/-- Processing of one message by `processPsaSales`: skip entirely when both
artifacts exist, otherwise the record action followed by the render action;
an uncaught `appendRow` exception aborts with the state accumulated so far. -/
def stepMsg (s : LoopSt) (m : Message) : StepRes :=
  let s1 := { s with scanned := s.scanned + 1 }
  if s1.existing.contains m.id && s1.processed.contains m.id then
    .ok { s1 with skipped := s1.skipped + 1 }
  else
    match stepRecord s1 m with
    | none => .abort s1
    | some s2 => .ok (stepRender s2 m (s1.processed.contains m.id))

inductive RunRes where
  | done : LoopSt → RunRes
  | abort : LoopSt → RunRes
deriving DecidableEq

/-- The message loop: messages in label pagination order; once the per-run
sales cap is reached no further message has any effect, which the code
realises by breaking out of every loop level. -/
def runMsgs : LoopSt → List Message → RunRes
  | s, [] => .done s
  | s, m :: ms =>
    if MAX_PER_RUN ≤ s.sales then .done s
    else
      match stepMsg s m with
      | .ok s2 => runMsgs s2 ms
      | .abort s2 => .abort s2

/-- Run summary reported by the final toast. -/
structure RunStats where
  scanned : ℕ
  skipped : ℕ
  sales : ℕ
  pdfs : ℕ
deriving DecidableEq

inductive RunOut where
  | done : World → RunStats → RunOut
  /-- The run died on an uncaught exception: rows and files mutated so far
  persist, but `saveProcessedIds_` never ran, so the persisted ledger is the
  old one. -/
  | aborted : World → RunOut
deriving DecidableEq

/-- `processPsaSales` (lines 13–154) over a given message sequence: load both
ledgers, process every message, and on completion overwrite the persisted
render ledger with the full in-memory set. -/
def processPsaSales (w : World) (msgs : List Message) : RunOut :=
  let s0 : LoopSt :=
    ⟨w.rows, w.files, loadExistingMessageIds w.rows, loadProcessedIds w.ledgerRows,
     0, 0, 0, 0⟩
  match runMsgs s0 msgs with
  | .done s => .done ⟨s.rows, s.files, s.processed⟩ ⟨s.scanned, s.skipped, s.sales, s.pdfs⟩
  | .abort s => .aborted ⟨s.rows, s.files, w.ledgerRows⟩

def outWorld : RunOut → World
  | .done w _ => w
  | .aborted w => w

def isDone : RunOut → Bool
  | .done _ _ => true
  | .aborted _ => false

/-! ### The record-only processor `ingestPsaSales` (ingestPsaSales.js) -/

def MAX_PER_RUN_INGEST : ℕ := 250

inductive IngestRes where
  | done : List SheetRow → IngestRes
  | aborted : List SheetRow → IngestRes
deriving DecidableEq

def ingestResRows : IngestRes → List SheetRow
  | .done r => r
  | .aborted r => r

/-- The message loop of `ingestPsaSales` (lines 24–49): capped by appended
count, dedup on the raw message id against the loaded set, skip on null
parse, append + mark + count otherwise; the `appendRow` call is unguarded. -/
def ingestGo (fmtDate : String → String) :
    List SheetRow → List String → ℕ → List Message → IngestRes
  | rows, _, _, [] => .done rows
  | rows, ids, n, m :: ms =>
    if MAX_PER_RUN_INGEST ≤ n then .done rows
    else if ids.contains m.id then ingestGo fmtDate rows ids n ms
    else
      match parsePsaEmailJs fmtDate m with
      | none => ingestGo fmtDate rows ids n ms
      | some r =>
        if m.appendOk then
          ingestGo fmtDate (rows ++ [rowOfJs r m.id]) (setAdd ids m.id) (n + 1) ms
        else .aborted rows

/-- `ingestPsaSales` (lines 13–51). -/
def ingestPsaSales (fmtDate : String → String) (rows : List SheetRow)
    (msgs : List Message) : IngestRes :=
  ingestGo fmtDate rows (loadExistingMessageIds rows) 0 msgs

/-! ### The render-only processor `exportPsaSalesToPDFs` (exportPsaSalesToPDFs.js) -/

def MAX_PER_RUN_PDF : ℕ := 100

structure PdfWorld where
  files : List PdfFile
  ledgerRows : List String
deriving DecidableEq

/-- The message loop of `exportPsaSalesToPDFs` (lines 22–46): skip ids
already in the set; otherwise render + write inside a `try` — on success the
id is added to the set and the counter bumped, on failure nothing changes. -/
def exportGo : List PdfFile → List String → ℕ → List Message →
    List PdfFile × List String
  | files, processed, _, [] => (files, processed)
  | files, processed, n, m :: ms =>
    if MAX_PER_RUN_PDF ≤ n then (files, processed)
    else if processed.contains m.id then exportGo files processed n ms
    else if m.renderOk then
      exportGo (files ++ [⟨m.id, buildFileNameJs m⟩]) (setAdd processed m.id) (n + 1) ms
    else exportGo files processed n ms

/-- `exportPsaSalesToPDFs` (lines 12–50): load the ledger, process, and
unconditionally overwrite the persisted ledger with the in-memory set (this
run never aborts mid-loop: each message's work is inside a `try`). -/
def exportPsaSalesToPDFs (w : PdfWorld) (msgs : List Message) : PdfWorld :=
  let processed := loadProcessedIds w.ledgerRows
  let r := exportGo w.files processed 0 msgs
  ⟨r.1, r.2⟩

/-! ### Remote image inlining (`inlineExternalImages_`)

The third substitution pass of `inlineExternalImages_`
(`exportPsaSalesToPDFs.js` lines 140–168 and the identical
`PSA-sales-csv-pdf.gs` lines 359–377): every
`src = <quote> https?://… <same quote>` reference is handed to a resolver;
the network is an oracle `String → FetchResult`. -/

inductive FetchResult where
  /-- `UrlFetchApp.fetch` threw (network fault, malformed URL, …). -/
  | fetchError : FetchResult
  /-- A response: status code, declared `Content-Type` (`''` when absent),
  and body bytes. -/
  | response : ℕ → String → List ℕ → FetchResult

/-- `Utilities.base64Encode` on a byte list. -/
def base64Table : List Char :=
  "ABCDEFGHIJKLMNOPQRSTUVWXYZabcdefghijklmnopqrstuvwxyz0123456789+/".toList

def b64c (n : ℕ) : Char := (base64Table.drop n).headD 'A'

def base64Encode : List ℕ → List Char
  | b1 :: b2 :: b3 :: rest =>
    b64c (b1 / 4) :: b64c (b1 % 4 * 16 + b2 / 16) :: b64c (b2 % 16 * 4 + b3 / 64) ::
      b64c (b3 % 64) :: base64Encode rest
  | [b1, b2] => [b64c (b1 / 4), b64c (b1 % 4 * 16 + b2 / 16), b64c (b2 % 16 * 4), '=']
  | [b1] => [b64c (b1 / 4), b64c (b1 % 4 * 16), '=', '=']
  | [] => []

/-- `normalizeGoogleProxyUrl_`: unwrap a `googleusercontent.com/proxy/` URL
to the fragment after its first `#`, when one exists. -/
def afterFirstHash : List Char → Option (List Char)
  | [] => none
  | '#' :: rest => some rest
  | _ :: rest => afterFirstHash rest

def normalizeGoogleProxyUrl (u : List Char) : List Char :=
  if containsCI "googleusercontent.com/proxy/".toList u then
    match afterFirstHash u with
    | some t => t
    | none => u
  else u

/-- `/\.<ext>(\?|$)/i` over the URL. -/
def extAt (ext : List Char) (s : List Char) : Bool :=
  match stripCI ('.' :: ext) s with
  | some [] => true
  | some ('?' :: _) => true
  | _ => false

def hasExt (ext : List Char) (url : List Char) : Bool :=
  (scanP (fun s => if extAt ext s then some () else none) url).isSome

/-- Content-type inference from the URL extension when the response declared
none (`png`/`jpe?g`/`gif`/`webp`, else opaque binary). -/
def inferCtype (url : List Char) : String :=
  if hasExt "png".toList url then "image/png"
  else if hasExt "jpg".toList url || hasExt "jpeg".toList url then "image/jpeg"
  else if hasExt "gif".toList url then "image/gif"
  else if hasExt "webp".toList url then "image/webp"
  else "application/octet-stream"

def dataUri (ctype : String) (bytes : List ℕ) : List Char :=
  "data:".toList ++ ctype.toList ++ ";base64,".toList ++ base64Encode bytes

/-- The replacement callback of the third pass: `whole` is the full matched
text (returned unchanged on every guard), `q` the quote character, `rawUrl`
the captured URL.  Guards in source order: normalize, the 2000-character URL
bound, the fetch (`catch` ⇒ unchanged), the non-200 status, the declared or
inferred content type, the 5 MiB size bound; then the data-URI rewrite. -/
def resolveExternalSrc (fetch : String → FetchResult) (whole : List Char)
    (q : Char) (rawUrl : List Char) : List Char :=
  let url := normalizeGoogleProxyUrl rawUrl
  if 2000 < url.length then whole
  else
    match fetch (String.mk url) with
    | .fetchError => whole
    | .response code ctype bytes =>
      if code ≠ 200 then whole
      else
        let ct := if ctype = "" then inferCtype url else ctype
        if 5 * 1024 * 1024 < bytes.length then whole
        else "src=".toList ++ q :: (dataUri ct bytes ++ [q])

/-- `https?:\/\/[^'"]+` tried at the head: returns the length matched. -/
def httpUrlAt (s : List Char) : Option ℕ :=
  match stripCI "http".toList s with
  | none => none
  | some r =>
    let sLen : ℕ := match r with
      | c :: _ => if c.toLower = 's' then 1 else 0
      | [] => 0
    match stripCI "://".toList (r.drop sLen) with
    | none => none
    | some r3 =>
      let t := (r3.takeWhile (fun c => ¬(c = '"' ∨ c = '\x27'))).length
      if t = 0 then none else some (4 + sLen + 3 + t)

/-- `/src\s*=\s*(['"])(https?:\/\/[^'"]+)\1/i` tried at the head of `s`:
returns (length of `match[0]`, quote, URL capture). -/
def srcRefAt (s : List Char) : Option (ℕ × Char × List Char) :=
  match stripCI "src".toList s with
  | none => none
  | some r1 =>
    let w1 := (r1.takeWhile isWsJs).length
    match r1.drop w1 with
    | '=' :: r3 =>
      let w2 := (r3.takeWhile isWsJs).length
      match r3.drop w2 with
      | q :: r5 =>
        if q = '"' ∨ q = '\x27' then
          match httpUrlAt r5 with
          | some ulen =>
            match r5.drop ulen with
            | c :: _ =>
              if c = q then some (3 + w1 + 1 + w2 + 1 + ulen + 1, q, r5.take ulen)
              else none
            | [] => none
          | none => none
        else none
      | [] => none
    | _ => none

/-- The global replace of the third pass, with JS left-to-right
non-overlapping semantics; the fuel argument (instantiated with the input
length, which a successful match always strictly consumes) only serves
termination. -/
def replaceSrcRefsGo (resolve : List Char → Char → List Char → List Char) :
    ℕ → List Char → List Char
  | 0, s => s
  | _ + 1, [] => []
  | fuel + 1, c :: rest =>
    match srcRefAt (c :: rest) with
    | some (len, q, url) =>
      resolve ((c :: rest).take len) q url ++
        replaceSrcRefsGo resolve fuel ((c :: rest).drop len)
    | none => c :: replaceSrcRefsGo resolve fuel rest

def replaceSrcRefs (resolve : List Char → Char → List Char → List Char)
    (s : List Char) : List Char :=
  replaceSrcRefsGo resolve s.length s

/-! ### Basic lemmas about the set / ledger primitives -/

theorem mem_setAdd {l : List String} {x y : String} :
    y ∈ setAdd l x ↔ y ∈ l ∨ y = x := by
  unfold setAdd
  split
  · next h =>
    constructor
    · exact Or.inl
    · rintro (h2 | rfl)
      · exact h2
      · simpa using h
  · simp

theorem setAdd_nodup {l : List String} {x : String} (h : l.Nodup) :
    (setAdd l x).Nodup := by
  unfold setAdd
  split
  · exact h
  · next hc =>
    have hx : x ∉ l := by simpa using hc
    simpa [List.nodup_append] using ⟨h, hx⟩

theorem mem_foldl_setAdd (l : List String) (acc : List String) (x : String) :
    x ∈ l.foldl (fun s v => if v = "" then s else setAdd s v) acc ↔
      x ∈ acc ∨ (x ∈ l ∧ x ≠ "") := by
  induction l generalizing acc with
  | nil => simp
  | cons v vs ih =>
    simp only [List.foldl_cons]
    by_cases hv : v = ""
    · subst hv
      simp only [if_pos rfl, ih]
      constructor
      · rintro (h | h)
        · exact Or.inl h
        · exact Or.inr ⟨List.mem_cons_of_mem _ h.1, h.2⟩
      · rintro (h | ⟨hm, hne⟩)
        · exact Or.inl h
        · rcases List.mem_cons.mp hm with rfl | hm2
          · exact absurd rfl hne
          · exact Or.inr ⟨hm2, hne⟩
    · rw [if_neg hv, ih]
      constructor
      · rintro (h | h)
        · rcases mem_setAdd.mp h with h2 | rfl
          · exact Or.inl h2
          · exact Or.inr ⟨List.mem_cons_self _ _, hv⟩
        · exact Or.inr ⟨List.mem_cons_of_mem _ h.1, h.2⟩
      · rintro (h | ⟨hm, hne⟩)
        · exact Or.inl (mem_setAdd.mpr (Or.inl h))
        · rcases List.mem_cons.mp hm with rfl | hm2
          · exact Or.inl (mem_setAdd.mpr (Or.inr rfl))
          · exact Or.inr ⟨hm2, hne⟩

theorem foldl_setAdd_nodup (l : List String) (acc : List String) (h : acc.Nodup) :
    (l.foldl (fun s v => if v = "" then s else setAdd s v) acc).Nodup := by
  induction l generalizing acc with
  | nil => simpa
  | cons v vs ih =>
    simp only [List.foldl_cons]
    split
    · exact ih acc h
    · exact ih _ (setAdd_nodup h)

theorem mem_loadProcessedIds (l : List String) (x : String) :
    x ∈ loadProcessedIds l ↔ x ∈ l ∧ x ≠ "" := by
  unfold loadProcessedIds
  rw [mem_foldl_setAdd]
  simp

theorem loadProcessedIds_nodup (l : List String) : (loadProcessedIds l).Nodup :=
  foldl_setAdd_nodup l [] List.nodup_nil

theorem foldl_setAdd_of_nodup (l : List String) (acc : List String)
    (h : (acc ++ l).Nodup) (he : "" ∉ l) :
    l.foldl (fun s v => if v = "" then s else setAdd s v) acc = acc ++ l := by
  induction l generalizing acc with
  | nil => simp
  | cons v vs ih =>
    have hv : v ≠ "" := fun hv => he (hv ▸ List.mem_cons_self _ _)
    have hvacc : v ∉ acc := by
      intro hmem
      rcases List.nodup_append.mp h with ⟨_, _, hdisj⟩
      exact hdisj hmem (List.mem_cons_self _ _)
    simp only [List.foldl_cons, if_neg hv]
    have hadd : setAdd acc v = acc ++ [v] := by
      unfold setAdd
      rw [if_neg]
      simpa using hvacc
    rw [hadd, ih (acc ++ [v]) (by simpa using h) (fun hm => he (List.mem_cons_of_mem _ hm))]
    simp

theorem loadProcessedIds_of_nodup (l : List String) (h : l.Nodup) (he : "" ∉ l) :
    loadProcessedIds l = l := by
  unfold loadProcessedIds
  rw [foldl_setAdd_of_nodup l [] (by simpa using h) he]
  simp

theorem mem_foldl_setAdd_trim (rows : List SheetRow) (acc : List String) (x : String) :
    x ∈ rows.foldl
        (fun s r => let v := jsTrim r.msgId; if v = "" then s else setAdd s v) acc ↔
      x ∈ acc ∨ ∃ r ∈ rows, jsTrim r.msgId = x ∧ x ≠ "" := by
  induction rows generalizing acc with
  | nil => simp
  | cons r rs ih =>
    simp only [List.foldl_cons]
    by_cases hv : jsTrim r.msgId = ""
    · simp only [hv, if_pos rfl, ih]
      constructor
      · rintro (h | ⟨r2, hm, hx⟩)
        · exact Or.inl h
        · exact Or.inr ⟨r2, List.mem_cons_of_mem _ hm, hx⟩
      · rintro (h | ⟨r2, hm, hx, hne⟩)
        · exact Or.inl h
        · rcases List.mem_cons.mp hm with rfl | hm2
          · exact absurd (hx.symm.trans hv) hne
          · exact Or.inr ⟨r2, hm2, hx, hne⟩
    · simp only [if_neg hv, ih]
      constructor
      · rintro (h | ⟨r2, hm, hx⟩)
        · rcases mem_setAdd.mp h with h2 | rfl
          · exact Or.inl h2
          · exact Or.inr ⟨r, List.mem_cons_self _ _, rfl, hv⟩
        · exact Or.inr ⟨r2, List.mem_cons_of_mem _ hm, hx⟩
      · rintro (h | ⟨r2, hm, hx, hne⟩)
        · exact Or.inl (mem_setAdd.mpr (Or.inl h))
        · rcases List.mem_cons.mp hm with rfl | hm2
          · exact Or.inl (mem_setAdd.mpr (Or.inr hx.symm))
          · exact Or.inr ⟨r2, hm2, hx, hne⟩

theorem mem_loadExistingMessageIds (rows : List SheetRow) (x : String) :
    x ∈ loadExistingMessageIds rows ↔
      ∃ r ∈ rows, jsTrim r.msgId = x ∧ x ≠ "" := by
  unfold loadExistingMessageIds
  rw [mem_foldl_setAdd_trim]
  simp

theorem loadExistingMessageIds_append (rows : List SheetRow) (r : SheetRow)
    (hstable : jsTrim r.msgId = r.msgId) (hne : r.msgId ≠ "") :
    loadExistingMessageIds (rows ++ [r]) =
      setAdd (loadExistingMessageIds rows) r.msgId := by
  unfold loadExistingMessageIds
  rw [List.foldl_append]
  simp only [List.foldl_cons, List.foldl_nil, hstable]
  rw [if_neg hne]

/-! ### Lemmas about `round2` -/

theorem round2_round2 (q : ℚ) : round2 (round2 q) = round2 q := by
  unfold round2
  set k : ℤ := ⌊(q + numEpsilon) * 100 + 1/2⌋ with hk
  have h1 : ((k : ℚ) / 100 + numEpsilon) * 100 + 1/2 =
      (k : ℚ) + (numEpsilon * 100 + 1/2) := by ring
  rw [h1, Int.floor_int_add]
  have h0 : ⌊(numEpsilon * 100 + 1/2 : ℚ)⌋ = 0 := by
    rw [Int.floor_eq_zero_iff]
    constructor
    · norm_num [numEpsilon]
    · norm_num [numEpsilon]
  rw [h0, add_zero]

theorem round2_neg_of_le (q : ℚ) (h : 1/100 ≤ q) : round2 (0 - q) < 0 := by
  unfold round2
  have hlt : ((0 : ℚ) - q + numEpsilon) * 100 + 1/2 < 0 := by
    unfold numEpsilon
    nlinarith
  have hfloor : ⌊((0 : ℚ) - q + numEpsilon) * 100 + 1/2⌋ < 0 := by
    by_contra hge
    push_neg at hge
    have := Int.floor_nonneg.mp hge
    linarith
  have hcast : ((⌊((0 : ℚ) - q + numEpsilon) * 100 + 1/2⌋ : ℤ) : ℚ) < 0 := by
    exact_mod_cast hfloor
  exact div_neg_of_neg_of_pos hcast (by norm_num)

/-! ### Claim C4 — partial-parse tolerance -/

/-- **C4.** Field extraction returns no record only when the
unexpected-exception oracle fires inside the `try` (both implementations);
and for a body with a certification match and a sale-price match but no
proceeds match, the returned record has `netProceeds` and `feesPaid` absent
and `soldAmount` and `certNumber` present — extraction does not fail. -/
theorem c4_partial_parse_tolerance (fmtDate : String → String) (m : Message) :
    ((parsePsaEmailGs m = none) ↔ m.parseFault = true) ∧
    ((parsePsaEmailJs fmtDate m = none) ↔ m.parseFault = true) ∧
    (m.parseFault = false →
      (certSearch (stripCR m.plainBody.toList)).isSome = true →
      (salePriceSearch (stripCR m.plainBody.toList)).isSome = true →
      proceedsSearch (stripCR m.plainBody.toList) = none →
      ∃ r, parsePsaEmailGs m = some r ∧ r.netProceeds = none ∧ r.feesPaid = none ∧
        r.soldAmount.isSome = true ∧ r.certNumber.isSome = true) := by
  refine ⟨?_, ?_, ?_⟩
  · unfold parsePsaEmailGs
    cases h : m.parseFault <;> simp
  · unfold parsePsaEmailJs
    cases h : m.parseFault <;> simp
  · intro hf hc hs hp
    obtain ⟨cp, hcp⟩ := Option.isSome_iff_exists.mp hc
    obtain ⟨sp, hsp⟩ := Option.isSome_iff_exists.mp hs
    simp only [String.toList] at hcp hsp hp
    refine ⟨(parsePsaEmailGsCore m).1, by simp [parsePsaEmailGs, hf], ?_, ?_, ?_, ?_⟩ <;>
      simp [parsePsaEmailGsCore, hcp, hsp, hp]

def msgC4 : Message :=
  ⟨"id-c4", "subj", "PSA CERT 123 Title here Sale Price $100", "2024-01-01",
   true, true, false⟩

/-- Witness for `c4_partial_parse_tolerance` at a concrete message whose body
has a certification pattern and a sale-price label but no proceeds label. -/
theorem c4_witness :
    ((parsePsaEmailGs msgC4 = none) ↔ msgC4.parseFault = true) ∧
    ((parsePsaEmailJs (fun s => s) msgC4 = none) ↔ msgC4.parseFault = true) ∧
    (msgC4.parseFault = false →
      (certSearch (stripCR msgC4.plainBody.toList)).isSome = true →
      (salePriceSearch (stripCR msgC4.plainBody.toList)).isSome = true →
      proceedsSearch (stripCR msgC4.plainBody.toList) = none →
      ∃ r, parsePsaEmailGs msgC4 = some r ∧ r.netProceeds = none ∧ r.feesPaid = none ∧
        r.soldAmount.isSome = true ∧ r.certNumber.isSome = true) :=
  c4_partial_parse_tolerance (fun s => s) msgC4

/-! ### Claim C6 — which timestamp becomes `saleDate` -/

def idFmt : String → String := fun s => s

def msgC6 : Message :=
  ⟨"id-c6", "subj", "PSA CERT 9 T Sale Price $5 Proceeds $4", "2024-03-05",
   true, true, false⟩

/-- **C6 counterexample.**  The claim says that when no listing-ended
timestamp is present the message's own timestamp is used as the fallback
`saleDate`.  For this message (no `Ended` text in the body, message date
`2024-03-05`) the `ingestPsaSales.js` parser returns `saleDate = null`
instead of the message date — the claimed fallback does not exist there. -/
theorem c6_counterexample :
    (parsePsaEmailJs idFmt msgC6).map (fun r => r.saleDate) = some none ∧
    endedSearch (stripCR msgC6.plainBody.toList) = none ∧
    msgC6.dateDay = "2024-03-05" := by decide

/-- **C6 amended.**  In `PSA-sales-csv-pdf.gs` the `saleDate` is always the
message's own timestamp (formatted to day granularity) — the body's
listing-ended text is never consulted; in `ingestPsaSales.js` the `saleDate`
is the formatted listing-ended capture when present and null otherwise —
the message's own timestamp is never used.  (`fmtDate` abstracts
`Utilities.formatDate(new Date(·), tz, 'yyyy-MM-dd')`; the first comma of
the capture is removed before formatting, as in the source.) -/
theorem c6_saleDate_source (fmtDate : String → String) (m : Message)
    (hf : m.parseFault = false) :
    (parsePsaEmailGs m).map (fun r => r.saleDate) = some m.dateDay ∧
    (parsePsaEmailJs fmtDate m).map (fun r => r.saleDate) =
      some ((endedSearch (stripCR m.plainBody.toList)).map
        (fun cap => fmtDate (String.mk (stripFirstComma cap)))) := by
  constructor
  · simp [parsePsaEmailGs, hf, parsePsaEmailGsCore]
  · cases he : endedSearch (stripCR m.plainBody.toList) with
    | none =>
      simp only [String.toList] at he
      simp [parsePsaEmailJs, hf, parsePsaEmailJsCore, he]
    | some cap =>
      simp only [String.toList] at he
      simp [parsePsaEmailJs, hf, parsePsaEmailJsCore, he, String.toList]

def msgC6w : Message :=
  ⟨"id-c6w", "subj", "Ended Mar 5, 4:30 PM PT Sale Price $5", "2024-04-01",
   true, true, false⟩

/-- Witness for `c6_saleDate_source` at a message whose body does contain a
listing-ended timestamp. -/
theorem c6_witness :
    (parsePsaEmailGs msgC6w).map (fun r => r.saleDate) = some "2024-04-01" ∧
    (parsePsaEmailJs idFmt msgC6w).map (fun r => r.saleDate) =
      some ((endedSearch (stripCR msgC6w.plainBody.toList)).map
        (fun cap => idFmt (String.mk (stripFirstComma cap)))) :=
  c6_saleDate_source idFmt msgC6w rfl

/-- Evaluation rule for `round2` at concrete inputs (rational arithmetic is
not kernel-reducible, so concrete values are established through
`Int.floor_eq_iff` bounds). -/
theorem round2_eq (q : ℚ) (k : ℤ) (h1 : (k : ℚ) ≤ (q + numEpsilon) * 100 + 1/2)
    (h2 : (q + numEpsilon) * 100 + 1/2 < k + 1) : round2 q = (k : ℚ) / 100 := by
  unfold round2
  have hf : ⌊(q + numEpsilon) * 100 + 1/2⌋ = k :=
    Int.floor_eq_iff.mpr ⟨h1, by linarith⟩
  rw [hf]

/-! ### Claim C7 — the rounding law -/

/-- **C7.**  `round2(1.005) = 1.01` (the epsilon nudge makes the half round
up), and for every extracted record whose sale price and proceeds captures
parse to the rationals `s` and `n`, the record's `feesPaid` is exactly
`round2 (s - n)` (the double `round2` the source applies collapses by
idempotence), with the record's `soldAmount` and `netProceeds` being
`round2 s` and `round2 n`. -/
theorem c7_rounding_law (m : Message) (s n : ℚ)
    (hf : m.parseFault = false)
    (hs : (salePriceSearch (stripCR m.plainBody.toList)).map jsNumberOfCapture =
      some (JsNum.val s))
    (hn : (proceedsSearch (stripCR m.plainBody.toList)).map jsNumberOfCapture =
      some (JsNum.val n)) :
    round2 (1005/1000) = 101/100 ∧
    ∃ r, parsePsaEmailGs m = some r ∧
      r.feesPaid = some (JsNum.val (round2 (s - n))) ∧
      r.soldAmount = some (JsNum.val (round2 s)) ∧
      r.netProceeds = some (JsNum.val (round2 n)) := by
  have h1005 : round2 (1005/1000) = 101/100 := by
    have := round2_eq (1005/1000) 101 (by norm_num [numEpsilon]) (by norm_num [numEpsilon])
    rw [this]
    norm_num
  refine ⟨h1005, (parsePsaEmailGsCore m).1, by simp [parsePsaEmailGs, hf], ?_, ?_, ?_⟩ <;>
    simp only [String.toList] at hs hn <;>
    simp [parsePsaEmailGsCore, hs, hn, JsNum.sub, round2J, round2_round2]

def msgC7 : Message :=
  ⟨"id-c7", "subj", "PSA CERT 1 X Sale Price $100.555 Proceeds $90.00", "2024-01-01",
   true, true, false⟩

/-- Witness for `c7_rounding_law` at the spec's own example:
`soldAmount = 100.555`, `netProceeds = 90.00`, and additionally
`round2 (100.555 − 90) = 10.56`, so the record's `feesPaid` is `10.56`. -/
theorem c7_witness :
    round2 (100555/1000 - 90) = 1056/100 ∧
    (round2 (1005/1000) = 101/100 ∧
      ∃ r, parsePsaEmailGs msgC7 = some r ∧
        r.feesPaid = some (JsNum.val (round2 (100555/1000 - 90))) ∧
        r.soldAmount = some (JsNum.val (round2 (100555/1000))) ∧
        r.netProceeds = some (JsNum.val (round2 90))) := by
  constructor
  · have h := round2_eq (100555/1000 - 90) 1056 (by norm_num [numEpsilon])
      (by norm_num [numEpsilon])
    rw [h]
    norm_num
  · refine c7_rounding_law msgC7 (100555/1000) 90 rfl ?_ ?_
    · have h : salePriceSearch (stripCR msgC7.plainBody.toList) =
          some "100.555".toList := by decide
      rw [h]
      simp +decide [jsNumberOfCapture, jsNumber, digitsVal]
      norm_num
    · have h : proceedsSearch (stripCR msgC7.plainBody.toList) =
          some "90.00".toList := by decide
      rw [h]
      simp +decide [jsNumberOfCapture, jsNumber, digitsVal]

/-! ### Claim C10 — presence is decided by the regex match, not the value -/

/-- **C10.**  When the sale-price label matches the amount `$0`, the parsed
`soldAmount` is present with value `0` (the source compares against `null`
with `===`, so `0` is not treated as absent), no `Sale Price` warning is
recorded, and when proceeds parse to `q` the record's `feesPaid` is
`round2 (0 − q)`, which is negative whenever `q ≥ 0.01`. -/
theorem c10_zero_sale_price (m : Message)
    (hf : m.parseFault = false)
    (hcap : salePriceSearch (stripCR m.plainBody.toList) = some ['0']) :
    ∃ r, parsePsaEmailGs m = some r ∧
      r.soldAmount = some (JsNum.val 0) ∧
      "Sale Price" ∉ (parsePsaEmailGsCore m).2 ∧
      ∀ q : ℚ, (proceedsSearch (stripCR m.plainBody.toList)).map jsNumberOfCapture =
          some (JsNum.val q) →
        r.feesPaid = some (JsNum.val (round2 (0 - q))) ∧
        (1/100 ≤ q → round2 (0 - q) < 0) := by
  have hz : round2 0 = 0 := by
    have h := round2_eq 0 0 (by norm_num [numEpsilon]) (by norm_num [numEpsilon])
    rw [h]
    norm_num
  have hnum : jsNumberOfCapture ['0'] = JsNum.val 0 := by
    simp +decide [jsNumberOfCapture, jsNumber, digitsVal]
  simp only [String.toList] at hcap
  refine ⟨(parsePsaEmailGsCore m).1, by simp [parsePsaEmailGs, hf], ?_, ?_, ?_⟩
  · simp [parsePsaEmailGsCore, hcap, hnum, round2J, hz]
  · simp [parsePsaEmailGsCore, hcap, hnum]
  · intro q hq
    simp only [String.toList] at hq
    constructor
    · simp [parsePsaEmailGsCore, hcap, hnum, hq, JsNum.sub, round2J, round2_round2]
    · intro hle
      exact round2_neg_of_le q hle

def msgC10 : Message :=
  ⟨"id-c10", "subj", "PSA CERT 5 X Sale Price $0 Proceeds $5.00", "2024-01-01",
   true, true, false⟩

/-- Witness for `c10_zero_sale_price` at a concrete `$0` sale. -/
theorem c10_witness :
    ∃ r, parsePsaEmailGs msgC10 = some r ∧
      r.soldAmount = some (JsNum.val 0) ∧
      "Sale Price" ∉ (parsePsaEmailGsCore msgC10).2 ∧
      ∀ q : ℚ, (proceedsSearch (stripCR msgC10.plainBody.toList)).map jsNumberOfCapture =
          some (JsNum.val q) →
        r.feesPaid = some (JsNum.val (round2 (0 - q))) ∧
        (1/100 ≤ q → round2 (0 - q) < 0) :=
  c10_zero_sale_price msgC10 rfl (by decide)

/-! ### Claim C9 — filename derivation -/

def msgC9 (body : String) : Message :=
  ⟨"id-c9", "Item: Sold! #42", body, "2024-03-05", true, true, false⟩

/-- **C9 counterexample.**  The claim predicts the filename begins
`2024-03-05 - Item Sold 42`, but `!` is not in the forbidden class
`[\\/:*?"<>|#]`, so the sanitised subject keeps it: the derived filename is
`2024-03-05 - Item Sold! 42.pdf`, which does not begin with the claimed
prefix. -/
theorem c9_counterexample :
    ("2024-03-05 - Item Sold 42".toList.isPrefixOf (buildFileNameGs (msgC9 "")).toList) = false ∧
    buildFileNameGs (msgC9 "") = "2024-03-05 - Item Sold! 42.pdf" := by decide

/-- **C9 amended.**  For subject `"Item: Sold! #42"`, no certification match
and date `2024-03-05`, both `buildFileName_` implementations produce exactly
`2024-03-05 - Item Sold! 42.pdf`: `:` and `#` are replaced by spaces, runs of
whitespace collapse to single spaces, the result is trimmed and truncated to
120 characters — but `!` is not a forbidden character and is kept.  The
cleaned subject is always at most 120 characters long. -/
theorem c9_filename_derivation (body : String)
    (hgs : certSearchWith certPats body.toList = none)
    (hjs : certSearchWith certPatsNoBgs body.toList = none) :
    buildFileNameGs (msgC9 body) = "2024-03-05 - Item Sold! 42.pdf" ∧
    buildFileNameJs (msgC9 body) = "2024-03-05 - Item Sold! 42.pdf" ∧
    ∀ s : List Char, (cleanSubject s).length ≤ 120 := by
  refine ⟨?_, ?_, ?_⟩
  · simp only [buildFileNameGs, buildFileNameWith, msgC9]
    rw [hgs]
    decide
  · simp only [buildFileNameJs, buildFileNameWith, msgC9]
    rw [hjs]
    decide
  · intro s
    simp only [cleanSubject, List.length_take]
    exact min_le_left _ _

/-- Witness for `c9_filename_derivation` at a concrete body with no
certification match. -/
theorem c9_witness :
    buildFileNameGs (msgC9 "hello") = "2024-03-05 - Item Sold! 42.pdf" ∧
    buildFileNameJs (msgC9 "hello") = "2024-03-05 - Item Sold! 42.pdf" ∧
    ∀ s : List Char, (cleanSubject s).length ≤ 120 :=
  c9_filename_derivation "hello" (by decide) (by decide)

/-! ### Claim C8 — remote-image resolution bounds -/

/-- A resolver that returns the original matched text everywhere leaves the
whole HTML unchanged (the global replace only ever substitutes the resolver's
output for the matched span). -/
theorem replaceSrcRefsGo_id (resolve : List Char → Char → List Char → List Char)
    (h : ∀ w q u, resolve w q u = w) :
    ∀ (fuel : ℕ) (s : List Char), replaceSrcRefsGo resolve fuel s = s := by
  intro fuel
  induction fuel with
  | zero => intro s; rfl
  | succ n ih =>
    intro s
    cases s with
    | nil => rfl
    | cons c rest =>
      show replaceSrcRefsGo resolve (n + 1) (c :: rest) = c :: rest
      unfold replaceSrcRefsGo
      cases hat : srcRefAt (c :: rest) with
      | none => simp [ih rest]
      | some p =>
        obtain ⟨len, q, url⟩ := p
        simp only [h, ih]
        exact List.take_append_drop len (c :: rest)

/-- **C8.**  For every external reference handed to the resolver: a
normalised URL longer than 2000 characters, a fetch error, a non-200 status,
or a body over 5 MiB each leave the original matched text unchanged; a 200
response with no declared content type (within both bounds) is rewritten to a
`data:` URI whose type is inferred from the URL extension and whose payload
is the base64 of the fetched bytes; and when every fetch fails the whole HTML
passes through the replacement pass byte-identical (the pass itself never
fails). -/
theorem c8_remote_image_resolution (fetch : String → FetchResult)
    (whole : List Char) (q : Char) (rawUrl : List Char) :
    (2000 < (normalizeGoogleProxyUrl rawUrl).length →
      resolveExternalSrc fetch whole q rawUrl = whole) ∧
    (fetch (String.mk (normalizeGoogleProxyUrl rawUrl)) = .fetchError →
      resolveExternalSrc fetch whole q rawUrl = whole) ∧
    (∀ code ctype bytes,
      fetch (String.mk (normalizeGoogleProxyUrl rawUrl)) = .response code ctype bytes →
      code ≠ 200 → resolveExternalSrc fetch whole q rawUrl = whole) ∧
    (∀ ctype bytes,
      fetch (String.mk (normalizeGoogleProxyUrl rawUrl)) = .response 200 ctype bytes →
      5 * 1024 * 1024 < bytes.length → resolveExternalSrc fetch whole q rawUrl = whole) ∧
    (∀ bytes,
      fetch (String.mk (normalizeGoogleProxyUrl rawUrl)) = .response 200 "" bytes →
      (normalizeGoogleProxyUrl rawUrl).length ≤ 2000 →
      bytes.length ≤ 5 * 1024 * 1024 →
      resolveExternalSrc fetch whole q rawUrl =
        "src=".toList ++ q ::
          (dataUri (inferCtype (normalizeGoogleProxyUrl rawUrl)) bytes ++ [q])) ∧
    ((∀ u, fetch u = .fetchError) →
      ∀ html, replaceSrcRefs (resolveExternalSrc fetch) html = html) := by
  refine ⟨?_, ?_, ?_, ?_, ?_, ?_⟩
  · intro hlen
    simp [resolveExternalSrc, hlen]
  · intro hf
    by_cases hl : 2000 < (normalizeGoogleProxyUrl rawUrl).length <;>
      simp [resolveExternalSrc, hl, hf]
  · intro code ctype bytes hf hcode
    by_cases hl : 2000 < (normalizeGoogleProxyUrl rawUrl).length <;>
      simp [resolveExternalSrc, hl, hf, hcode]
  · intro ctype bytes hf hsize
    by_cases hl : 2000 < (normalizeGoogleProxyUrl rawUrl).length <;>
      simp [resolveExternalSrc, hl, hf, hsize]
  · intro bytes hf hlen hsize
    have hl : ¬ 2000 < (normalizeGoogleProxyUrl rawUrl).length := Nat.not_lt.mpr hlen
    simp [resolveExternalSrc, hl, hf, Nat.not_lt.mpr hsize]
  · intro hall html
    apply replaceSrcRefsGo_id
    intro w q2 u
    by_cases hl : 2000 < (normalizeGoogleProxyUrl u).length <;>
      simp [resolveExternalSrc, hl, hall]

def fetchC8 : String → FetchResult := fun _ => .response 200 "" [137, 80, 78, 71]

/-- Witness for `c8_remote_image_resolution`: a 200 response with no declared
content type for a `.png` URL is rewritten to an extension-inferred `data:`
URI. -/
theorem c8_witness :
    resolveExternalSrc fetchC8 "ORIGINAL".toList '"' "https://a.b/c.png".toList =
      "src=".toList ++ '"' ::
        (dataUri (inferCtype (normalizeGoogleProxyUrl "https://a.b/c.png".toList))
          [137, 80, 78, 71] ++ ['"']) :=
  (c8_remote_image_resolution fetchC8 "ORIGINAL".toList '"'
      "https://a.b/c.png".toList).2.2.2.2.1 [137, 80, 78, 71] rfl (by decide) (by decide)

/-! ### Claim C2 — render-ledger membership tracks successful writes -/

/-- One `exportPsaSalesToPDFs` pass appends some list of new files and its
in-memory set grows by exactly the source ids of those files; every new file
comes from a message of this run whose render-and-write succeeded. -/
theorem exportGo_spec (msgs : List Message) (files : List PdfFile)
    (processed : List String) (n : ℕ) :
    ∃ new : List PdfFile,
      (exportGo files processed n msgs).1 = files ++ new ∧
      (∀ id, id ∈ (exportGo files processed n msgs).2 ↔
        id ∈ processed ∨ id ∈ new.map PdfFile.srcId) ∧
      (∀ f ∈ new, ∃ m ∈ msgs, m.renderOk = true ∧ f.srcId = m.id ∧
        f.name = buildFileNameJs m) := by
  induction msgs generalizing files processed n with
  | nil => exact ⟨[], by simp [exportGo], by simp [exportGo], by simp⟩
  | cons m ms ih =>
    by_cases hcap : MAX_PER_RUN_PDF ≤ n
    · refine ⟨[], ?_, ?_, by simp⟩ <;> simp [exportGo, hcap]
    · by_cases hmem : m.id ∈ processed
      · obtain ⟨new, h1, h2, h3⟩ := ih files processed n
        have hgo : exportGo files processed n (m :: ms) = exportGo files processed n ms := by
          simp [exportGo, hcap, hmem]
        refine ⟨new, by rw [hgo]; exact h1, by rw [hgo]; exact h2, ?_⟩
        intro f hf
        obtain ⟨m2, hm2, h⟩ := h3 f hf
        exact ⟨m2, List.mem_cons_of_mem _ hm2, h⟩
      · by_cases hrok : m.renderOk
        · obtain ⟨new, h1, h2, h3⟩ :=
            ih (files ++ [⟨m.id, buildFileNameJs m⟩]) (setAdd processed m.id) (n + 1)
          have hgo : exportGo files processed n (m :: ms) =
              exportGo (files ++ [⟨m.id, buildFileNameJs m⟩]) (setAdd processed m.id)
                (n + 1) ms := by
            simp [exportGo, hcap, hmem, hrok]
          refine ⟨⟨m.id, buildFileNameJs m⟩ :: new, ?_, ?_, ?_⟩
          · rw [hgo]
            simpa using h1
          · intro id
            rw [hgo, h2 id, mem_setAdd]
            simp only [List.map_cons, List.mem_cons]
            tauto
          · intro f hf
            rcases List.mem_cons.mp hf with rfl | hf2
            · exact ⟨m, List.mem_cons_self _ _, hrok, rfl, rfl⟩
            · obtain ⟨m2, hm2, h⟩ := h3 f hf2
              exact ⟨m2, List.mem_cons_of_mem _ hm2, h⟩
        · obtain ⟨new, h1, h2, h3⟩ := ih files processed n
          have hrokf : m.renderOk = false := by simpa using hrok
          have hgo : exportGo files processed n (m :: ms) = exportGo files processed n ms := by
            simp [exportGo, hcap, hmem, hrokf]
          refine ⟨new, by rw [hgo]; exact h1, by rw [hgo]; exact h2, ?_⟩
          intro f hf
          obtain ⟨m2, hm2, h⟩ := h3 f hf
          exact ⟨m2, List.mem_cons_of_mem _ hm2, h⟩

theorem exportRun_spec (w : PdfWorld) (msgs : List Message) :
    ∃ new : List PdfFile,
      (exportPsaSalesToPDFs w msgs).files = w.files ++ new ∧
      (∀ id, id ∈ (exportPsaSalesToPDFs w msgs).ledgerRows ↔
        id ∈ loadProcessedIds w.ledgerRows ∨ id ∈ new.map PdfFile.srcId) ∧
      (∀ f ∈ new, ∃ m ∈ msgs, m.renderOk = true ∧ f.srcId = m.id ∧
        f.name = buildFileNameJs m) := by
  obtain ⟨new, h1, h2, h3⟩ := exportGo_spec msgs w.files (loadProcessedIds w.ledgerRows) 0
  exact ⟨new, h1, h2, h3⟩

/-- The render-ledger invariant is preserved across any sequence of
`exportPsaSalesToPDFs` runs (messages with non-empty ids): the persisted
ledger contains an id exactly when a file with that source id exists. -/
theorem exportRuns_inv (runs : List (List Message)) (w : PdfWorld)
    (hids : ∀ r ∈ runs, ∀ m ∈ r, m.id ≠ "")
    (hinv : ∀ id, id ∈ w.ledgerRows ↔ ∃ f ∈ w.files, f.srcId = id)
    (hne : "" ∉ w.ledgerRows) :
    (∀ id, id ∈ (runs.foldl exportPsaSalesToPDFs w).ledgerRows ↔
      ∃ f ∈ (runs.foldl exportPsaSalesToPDFs w).files, f.srcId = id) ∧
    "" ∉ (runs.foldl exportPsaSalesToPDFs w).ledgerRows := by
  induction runs generalizing w with
  | nil => exact ⟨hinv, hne⟩
  | cons msgs rest ih =>
    simp only [List.foldl_cons]
    obtain ⟨new, h1, h2, h3⟩ := exportRun_spec w msgs
    have hload : ∀ id, id ∈ loadProcessedIds w.ledgerRows ↔ id ∈ w.ledgerRows := by
      intro id
      rw [mem_loadProcessedIds]
      constructor
      · exact fun h => h.1
      · intro h
        exact ⟨h, fun he => hne (he ▸ h)⟩
    refine ih (exportPsaSalesToPDFs w msgs)
      (fun r hr m hm => hids r (List.mem_cons_of_mem _ hr) m hm) ?_ ?_
    · intro id
      rw [h2 id, hload id, hinv id, h1]
      constructor
      · rintro (⟨f, hf, hid⟩ | hmap)
        · exact ⟨f, List.mem_append_left _ hf, hid⟩
        · obtain ⟨f, hf, hid⟩ := List.mem_map.mp hmap
          exact ⟨f, List.mem_append_right _ hf, hid⟩
      · rintro ⟨f, hf, hid⟩
        rcases List.mem_append.mp hf with hfl | hfr
        · exact Or.inl ⟨f, hfl, hid⟩
        · exact Or.inr (List.mem_map.mpr ⟨f, hfr, hid⟩)
    · intro hmem
      rcases (h2 "").mp hmem with hl | hmap
      · exact absurd ((hload "").mp hl) hne
      · obtain ⟨f, hf, hid⟩ := List.mem_map.mp hmap
        obtain ⟨m, hm, _, hsrc, _⟩ := h3 f hf
        exact hids msgs (List.mem_cons_self _ _) m hm (hsrc ▸ hid)



/-! ### Claim C3 — dedup-key column uniqueness -/

theorem msgId_mem_loadExisting {rows : List SheetRow} {r : SheetRow}
    (hr : r ∈ rows) (hstable : jsTrim r.msgId = r.msgId) (hne : r.msgId ≠ "") :
    r.msgId ∈ loadExistingMessageIds rows :=
  (mem_loadExistingMessageIds rows r.msgId).mpr ⟨r, hr, hstable, hne⟩

/-- Loop invariant of `ingestPsaSales`: when every existing row id is
trim-stable, non-empty and already in the in-memory set, and the incoming
message ids are trim-stable and non-empty, the dedup-key column stays
duplicate-free (also when the run aborts on a failed append). -/
theorem ingestGo_inv (fmtDate : String → String) (msgs : List Message)
    (rows : List SheetRow) (ids : List String) (n : ℕ)
    (hwf : ∀ r ∈ rows, jsTrim r.msgId = r.msgId ∧ r.msgId ≠ "")
    (hnd : (rows.map SheetRow.msgId).Nodup)
    (hsub : ∀ r ∈ rows, r.msgId ∈ ids)
    (hids : ∀ m ∈ msgs, jsTrim m.id = m.id ∧ m.id ≠ "") :
    (∀ r ∈ ingestResRows (ingestGo fmtDate rows ids n msgs),
      jsTrim r.msgId = r.msgId ∧ r.msgId ≠ "") ∧
    ((ingestResRows (ingestGo fmtDate rows ids n msgs)).map SheetRow.msgId).Nodup := by
  induction msgs generalizing rows ids n with
  | nil => exact ⟨hwf, hnd⟩
  | cons m ms ih =>
    by_cases hcap : MAX_PER_RUN_INGEST ≤ n
    · rw [show ingestGo fmtDate rows ids n (m :: ms) = .done rows by
        simp [ingestGo, hcap]]
      exact ⟨hwf, hnd⟩
    · by_cases hmem : m.id ∈ ids
      · rw [show ingestGo fmtDate rows ids n (m :: ms) =
          ingestGo fmtDate rows ids n ms by simp [ingestGo, hcap, hmem]]
        exact ih rows ids n hwf hnd hsub (fun m2 hm2 => hids m2 (List.mem_cons_of_mem _ hm2))
      · cases hp : parsePsaEmailJs fmtDate m with
        | none =>
          rw [show ingestGo fmtDate rows ids n (m :: ms) =
            ingestGo fmtDate rows ids n ms by simp [ingestGo, hcap, hmem, hp]]
          exact ih rows ids n hwf hnd hsub
            (fun m2 hm2 => hids m2 (List.mem_cons_of_mem _ hm2))
        | some rec =>
          by_cases hap : m.appendOk
          · rw [show ingestGo fmtDate rows ids n (m :: ms) =
              ingestGo fmtDate (rows ++ [rowOfJs rec m.id]) (setAdd ids m.id) (n + 1) ms by
                simp [ingestGo, hcap, hmem, hp, hap]]
            have hmid := hids m (List.mem_cons_self _ _)
            have hnewwf : ∀ r ∈ rows ++ [rowOfJs rec m.id],
                jsTrim r.msgId = r.msgId ∧ r.msgId ≠ "" := by
              intro r hr
              rcases List.mem_append.mp hr with h | h
              · exact hwf r h
              · rcases List.mem_singleton.mp h with rfl
                exact hmid
            have hnotin : m.id ∉ rows.map SheetRow.msgId := by
              intro hmm
              obtain ⟨r, hr, hrid⟩ := List.mem_map.mp hmm
              exact hmem (hrid ▸ hsub r hr)
            have hnewnd : ((rows ++ [rowOfJs rec m.id]).map SheetRow.msgId).Nodup := by
              rw [List.map_append]
              simp only [List.map_cons, List.map_nil, rowOfJs]
              rw [List.nodup_append]
              exact ⟨hnd, List.nodup_singleton _, by simpa using hnotin⟩
            have hnewsub : ∀ r ∈ rows ++ [rowOfJs rec m.id], r.msgId ∈ setAdd ids m.id := by
              intro r hr
              rcases List.mem_append.mp hr with h | h
              · exact mem_setAdd.mpr (Or.inl (hsub r h))
              · rcases List.mem_singleton.mp h with rfl
                exact mem_setAdd.mpr (Or.inr rfl)
            exact ih (rows ++ [rowOfJs rec m.id]) (setAdd ids m.id) (n + 1)
              hnewwf hnewnd hnewsub (fun m2 hm2 => hids m2 (List.mem_cons_of_mem _ hm2))
          · rw [show ingestGo fmtDate rows ids n (m :: ms) = .aborted rows by
              simp [ingestGo, hcap, hmem, hp, hap]]
            exact ⟨hwf, hnd⟩

def msgTrim : Message :=
  ⟨" x", "s", "PSA CERT 7 C Sale Price $1 Proceeds $1", "2024-01-01", true, true, false⟩

/-- **C3 counterexample.**  A message whose id ` x` carries leading
whitespace is appended twice across two runs: `loadExistingMessageIds_` trims
the stored column value to `x`, the dedup check `existingIds.has(msgId)`
tests the raw id ` x`, which is absent — so the second run appends the same
id again and the dedup-key column holds two equal values. -/
theorem c3_counterexample :
    ¬ (([[msgTrim], [msgTrim]].foldl
        (fun rows msgs => ingestResRows (ingestPsaSales idFmt rows msgs))
        []).map SheetRow.msgId).Nodup := by decide

/-- **C3 amended.**  When every message id equals its own trimmed form and is
non-empty (true of real Gmail ids), the dedup-key column values are pairwise
distinct after any number of `ingestPsaSales` runs from an empty sheet: a row
is appended only when its raw id is absent from the loaded (trimmed) set,
which then contains every stored id, and the id is added to the in-memory set
immediately after the append. -/
theorem c3_dedup_column_nodup (fmtDate : String → String)
    (runs : List (List Message))
    (hids : ∀ run ∈ runs, ∀ m ∈ run, jsTrim m.id = m.id ∧ m.id ≠ "") :
    ((runs.foldl (fun rows msgs => ingestResRows (ingestPsaSales fmtDate rows msgs))
        []).map SheetRow.msgId).Nodup := by
  suffices h : ∀ (rows : List SheetRow),
      (∀ r ∈ rows, jsTrim r.msgId = r.msgId ∧ r.msgId ≠ "") →
      (rows.map SheetRow.msgId).Nodup →
      (∀ run ∈ runs, ∀ m ∈ run, jsTrim m.id = m.id ∧ m.id ≠ "") →
      (∀ r ∈ runs.foldl
          (fun rows msgs => ingestResRows (ingestPsaSales fmtDate rows msgs)) rows,
        jsTrim r.msgId = r.msgId ∧ r.msgId ≠ "") ∧
      ((runs.foldl (fun rows msgs => ingestResRows (ingestPsaSales fmtDate rows msgs))
          rows).map SheetRow.msgId).Nodup by
    exact (h [] (by simp) (by simp) hids).2
  clear hids
  induction runs with
  | nil => exact fun rows hwf hnd _ => ⟨hwf, hnd⟩
  | cons msgs rest ih =>
    intro rows hwf hnd hids
    simp only [List.foldl_cons]
    have hstep := ingestGo_inv fmtDate msgs rows (loadExistingMessageIds rows) 0 hwf hnd
      (fun r hr => msgId_mem_loadExisting hr (hwf r hr).1 (hwf r hr).2)
      (hids msgs (List.mem_cons_self _ _))
    exact ih (ingestResRows (ingestPsaSales fmtDate rows msgs)) hstep.1 hstep.2
      (fun run hr m hm => hids run (List.mem_cons_of_mem _ hr) m hm)

def msgC3 : Message :=
  ⟨"idc3", "s", "PSA CERT 7 C Sale Price $1 Proceeds $1", "2024-01-01", true, true, false⟩

/-- Witness for `c3_dedup_column_nodup` on two runs over the same well-formed
message. -/
theorem c3_witness :
    (([[msgC3], [msgC3]].foldl
        (fun rows msgs => ingestResRows (ingestPsaSales idFmt rows msgs))
        []).map SheetRow.msgId).Nodup :=
  c3_dedup_column_nodup idFmt [[msgC3], [msgC3]] (by decide)

/-! ### Claim C5 — failure isolation in the combined processor -/

def msgBadAppend : Message :=
  ⟨"b", "s", "PSA CERT 7 C Sale Price $1 Proceeds $1", "2024-01-01", false, true, false⟩

def msgGood : Message :=
  ⟨"g", "s", "PSA CERT 7 C Sale Price $1 Proceeds $1", "2024-01-01", true, true, false⟩

/-- **C5 counterexample.**  The `sheet.appendRow` call of `processPsaSales`
is not inside any `try`: when the append throws for the first message, the
run aborts — the render action for that same message never executes (no file,
although its render would succeed) and the second, fully healthy message is
not processed at all (no row, no file, and the ledger save never runs). -/
theorem c5_counterexample :
    processPsaSales ⟨[], [], []⟩ [msgBadAppend, msgGood] =
      RunOut.aborted ⟨[], [], []⟩ := by decide

/-- **C5 amended.**  Parsing exceptions are caught inside `parsePsaEmail_`
(the record action just skips, independently of the render oracle), the
record action's outcome never depends on the render oracle, render/write
exceptions are caught inside `exportSinglePDF_` (the step leaves the state
unchanged), a message whose parse faults still gets its render action, and an
`ok` step continues with the remaining messages — but, per the
counterexample, an exception in the row append itself is not caught and
aborts the run. -/
theorem c5_failure_isolation :
    (∀ (s : LoopSt) (m : Message), m.parseFault = true → stepRecord s m = some s) ∧
    (∀ (s : LoopSt) (m : Message) (b : Bool),
      stepRecord s { m with renderOk := b } = stepRecord s m) ∧
    (∀ (s : LoopSt) (m : Message) (hadPDF : Bool), m.renderOk = false →
      stepRender s m hadPDF = s) ∧
    (∀ (s : LoopSt) (m : Message), m.parseFault = true → m.renderOk = true →
      s.processed.contains m.id = false →
      ∃ s2, stepMsg s m = .ok s2 ∧ s2.rows = s.rows ∧
        s2.files = s.files ++ [⟨m.id, buildFileNameGs m⟩]) ∧
    (∀ (s : LoopSt) (m : Message) (s2 : LoopSt) (ms : List Message),
      s.sales < MAX_PER_RUN → stepMsg s m = .ok s2 →
      runMsgs s (m :: ms) = runMsgs s2 ms) := by
  refine ⟨?_, ?_, ?_, ?_, ?_⟩
  · intro s m h
    unfold stepRecord
    split
    · rfl
    · simp [parsePsaEmailGs, h]
  · intro s m b
    unfold stepRecord
    simp only [parsePsaEmailGs, parsePsaEmailGsCore, cardTitleOf, rowOfGs]
  · intro s m hadPDF h
    unfold stepRender
    split
    · rfl
    · simp [h]
  · intro s m hpf hro hpdf
    have hrec : ∀ s1 : LoopSt, stepRecord s1 m = some s1 := by
      intro s1
      unfold stepRecord
      split
      · rfl
      · simp [parsePsaEmailGs, hpf]
    unfold stepMsg
    simp only [hrec, hpdf, Bool.and_false, if_neg (by simp : ¬(false = true)), hro]
    unfold stepRender
    simp [hpdf, hro]
  · intro s m s2 ms hlt hstep
    conv_lhs => rw [runMsgs]
    rw [if_neg (Nat.not_le.mpr hlt), hstep]

def msgParseFault : Message :=
  ⟨"pf", "s", "PSA CERT 7 C Sale Price $1 Proceeds $1", "2024-01-01", true, true, true⟩

def loopSt0 : LoopSt := ⟨[], [], [], [], 0, 0, 0, 0⟩

/-- Witness for `c5_failure_isolation`: a message whose parse faults still
has its render action executed, and the step does not abort. -/
theorem c5_witness :
    ∃ s2, stepMsg loopSt0 msgParseFault = .ok s2 ∧ s2.rows = loopSt0.rows ∧
      s2.files = loopSt0.files ++ [⟨msgParseFault.id, buildFileNameGs msgParseFault⟩] :=
  c5_failure_isolation.2.2.2.1 loopSt0 msgParseFault rfl rfl (by decide)

/-! ### Claim C1 — second-run behaviour of the combined processor -/

/-- Outcome of the record action when it does not abort: either the state is
untouched (id already recorded, or the parse returned null), or exactly one
row with this id was appended, the id entered the in-memory set and the sales
counter advanced. -/
theorem stepRecord_ok_spec (s s2 : LoopSt) (m : Message)
    (h : stepRecord s m = some s2) :
    s2.processed = s.processed ∧ s2.files = s.files ∧ s2.scanned = s.scanned ∧
    s2.skipped = s.skipped ∧ s2.pdfs = s.pdfs ∧
    ((s2 = s ∧ (m.id ∈ s.existing ∨ parsePsaEmailGs m = none)) ∨
     (m.id ∉ s.existing ∧ s2.existing = setAdd s.existing m.id ∧
      s2.sales = s.sales + 1 ∧
      ∃ rec, parsePsaEmailGs m = some rec ∧ s2.rows = s.rows ++ [rowOfGs rec m.id])) := by
  unfold stepRecord at h
  by_cases hmem : s.existing.contains m.id
  · rw [if_pos hmem] at h
    obtain rfl := Option.some_injective _ h
    exact ⟨rfl, rfl, rfl, rfl, rfl, Or.inl ⟨rfl, Or.inl (by simpa using hmem)⟩⟩
  · rw [if_neg hmem] at h
    cases hp : parsePsaEmailGs m with
    | none =>
      simp only [hp] at h
      obtain rfl := Option.some_injective _ h
      exact ⟨rfl, rfl, rfl, rfl, rfl, Or.inl ⟨rfl, Or.inr rfl⟩⟩
    | some rec =>
      simp only [hp] at h
      by_cases hap : m.appendOk
      · rw [if_pos hap] at h
        obtain rfl := Option.some_injective _ h
        refine ⟨rfl, rfl, rfl, rfl, rfl, Or.inr ⟨by simpa using hmem, rfl, rfl, rec, rfl, rfl⟩⟩
      · rw [if_neg hap] at h
        cases h

/-- Outcome of the render action: untouched when the id was already rendered
or the render fails; otherwise exactly one file for this id is written and
the id enters the in-memory set. -/
theorem stepRender_spec (s : LoopSt) (m : Message) (hadPDF : Bool) :
    (stepRender s m hadPDF = s ∧ (hadPDF = true ∨ m.renderOk = false)) ∨
    (hadPDF = false ∧ m.renderOk = true ∧
     stepRender s m hadPDF = { s with files := s.files ++ [⟨m.id, buildFileNameGs m⟩], processed := setAdd s.processed m.id, pdfs := s.pdfs + 1 }) := by
  unfold stepRender
  cases hadPDF with
  | true => exact Or.inl ⟨rfl, Or.inl rfl⟩
  | false =>
    cases hrok : m.renderOk with
    | true => exact Or.inr ⟨rfl, rfl, by simp⟩
    | false => exact Or.inl ⟨by simp, Or.inr rfl⟩

/-- Full characterisation of an `ok` step for the second-run argument: the
state invariant is preserved, the processed message's id lands in (or already
was in) the respective ledgers, and both in-memory sets only grow. -/
theorem stepMsg_ok_post (s s2 : LoopSt) (m : Message)
    (hid : jsTrim m.id = m.id ∧ m.id ≠ "")
    (hA : s.processed.Nodup ∧ "" ∉ s.processed ∧
      s.existing = loadExistingMessageIds s.rows)
    (h : stepMsg s m = .ok s2) :
    (s2.processed.Nodup ∧ "" ∉ s2.processed ∧
      s2.existing = loadExistingMessageIds s2.rows) ∧
    (parsePsaEmailGs m ≠ none → m.id ∈ s2.existing) ∧
    (m.renderOk = true → m.id ∈ s2.processed) ∧
    (∀ x ∈ s.existing, x ∈ s2.existing) ∧
    (∀ x ∈ s.processed, x ∈ s2.processed) := by
  simp only [stepMsg] at h
  by_cases hskip : (s.existing.contains m.id && s.processed.contains m.id) = true
  · rw [if_pos hskip] at h
    obtain rfl : _ = s2 := StepRes.ok.inj h
    obtain ⟨hE, hP⟩ := Bool.and_eq_true_iff.mp hskip
    exact ⟨hA, fun _ => by simpa using hE, fun _ => by simpa using hP,
      fun x hx => hx, fun x hx => hx⟩
  · rw [if_neg hskip] at h
    cases hrec : stepRecord { s with scanned := s.scanned + 1 } m with
    | none =>
      rw [hrec] at h
      cases h
    | some s3 =>
      rw [hrec] at h
      obtain rfl : _ = s2 := StepRes.ok.inj h
      obtain ⟨hp3, hf3, _, _, _, hrec2⟩ :=
        stepRecord_ok_spec { s with scanned := s.scanned + 1 } s3 m hrec
      have hex3 : s3.existing = loadExistingMessageIds s3.rows ∧
          (parsePsaEmailGs m ≠ none → m.id ∈ s3.existing) ∧
          (∀ x ∈ s.existing, x ∈ s3.existing) := by
        rcases hrec2 with ⟨rfl, hcase⟩ | ⟨hnot, hE, _, rec, hprec, hR⟩
        · refine ⟨hA.2.2, ?_, fun x hx => hx⟩
          intro hpne
          rcases hcase with hmem | hnone
          · exact hmem
          · exact absurd hnone hpne
        · refine ⟨?_, fun _ => ?_, fun x hx => ?_⟩
          · rw [hE, hR]
            simp only []
            rw [loadExistingMessageIds_append _ _ hid.1 hid.2]
            rw [← hA.2.2]
            rfl
          · rw [hE]
            exact mem_setAdd.mpr (Or.inr rfl)
          · rw [hE]
            exact mem_setAdd.mpr (Or.inl hx)
      rcases stepRender_spec s3 m
          ({ s with scanned := s.scanned + 1 }.processed.contains m.id) with
        ⟨hren, hwhy⟩ | ⟨hpdf, hrok, hren⟩
      · rw [hren]
        refine ⟨⟨hp3 ▸ hA.1, hp3 ▸ hA.2.1, hex3.1⟩, hex3.2.1, ?_, hex3.2.2,
          fun x hx => hp3 ▸ hx⟩
        intro hrok2
        rcases hwhy with hhad | hbad
        · rw [hp3]
          simpa using hhad
        · rw [hrok2] at hbad
          cases hbad
      · rw [hren]
        refine ⟨⟨?_, ?_, ?_⟩, ?_, ?_, ?_, ?_⟩
        · exact setAdd_nodup (hp3 ▸ hA.1)
        · intro hmm
          rcases mem_setAdd.mp hmm with hmm2 | hmm2
          · exact hA.2.1 (hp3 ▸ hmm2)
          · exact hid.2 hmm2.symm
        · exact hex3.1
        · exact hex3.2.1
        · exact fun _ => mem_setAdd.mpr (Or.inr rfl)
        · exact hex3.2.2
        · intro x hx
          exact mem_setAdd.mpr (Or.inl (hp3 ▸ hx))

/-- An `ok` step only grows the two in-memory ledgers. -/
theorem stepMsg_ok_mono (s s2 : LoopSt) (m : Message)
    (h : stepMsg s m = .ok s2) :
    (∀ x ∈ s.existing, x ∈ s2.existing) ∧ (∀ x ∈ s.processed, x ∈ s2.processed) := by
  simp only [stepMsg] at h
  by_cases hskip : (s.existing.contains m.id && s.processed.contains m.id) = true
  · rw [if_pos hskip] at h
    obtain rfl : _ = s2 := StepRes.ok.inj h
    exact ⟨fun x hx => hx, fun x hx => hx⟩
  · rw [if_neg hskip] at h
    cases hrec : stepRecord { s with scanned := s.scanned + 1 } m with
    | none =>
      rw [hrec] at h
      cases h
    | some s3 =>
      rw [hrec] at h
      obtain rfl : _ = s2 := StepRes.ok.inj h
      obtain ⟨hp3, _, _, _, _, hrec2⟩ :=
        stepRecord_ok_spec { s with scanned := s.scanned + 1 } s3 m hrec
      have hE3 : ∀ x ∈ s.existing, x ∈ s3.existing := by
        rcases hrec2 with ⟨rfl, _⟩ | ⟨_, hE, _⟩
        · exact fun x hx => hx
        · intro x hx
          rw [hE]
          exact mem_setAdd.mpr (Or.inl hx)
      rcases stepRender_spec s3 m
          ({ s with scanned := s.scanned + 1 }.processed.contains m.id) with
        ⟨hren, _⟩ | ⟨_, _, hren⟩ <;> rw [hren]
      · exact ⟨hE3, fun x hx => hp3 ▸ hx⟩
      · exact ⟨hE3, fun x hx => mem_setAdd.mpr (Or.inl (hp3 ▸ hx))⟩

/-- A completed run only grows the two in-memory ledgers. -/
theorem runMsgs_mono (msgs : List Message) (s s1 : LoopSt)
    (hrun : runMsgs s msgs = .done s1) :
    (∀ x ∈ s.existing, x ∈ s1.existing) ∧ (∀ x ∈ s.processed, x ∈ s1.processed) := by
  induction msgs generalizing s with
  | nil =>
    obtain rfl : s = s1 := RunRes.done.inj hrun
    exact ⟨fun x hx => hx, fun x hx => hx⟩
  | cons m ms ih =>
    rw [runMsgs] at hrun
    by_cases hsales : MAX_PER_RUN ≤ s.sales
    · rw [if_pos hsales] at hrun
      obtain rfl : s = s1 := RunRes.done.inj hrun
      exact ⟨fun x hx => hx, fun x hx => hx⟩
    · rw [if_neg hsales] at hrun
      cases hstep : stepMsg s m with
      | abort s2 =>
        rw [hstep] at hrun
        cases hrun
      | ok s2 =>
        rw [hstep] at hrun
        obtain ⟨hE, hP⟩ := stepMsg_ok_mono s s2 m hstep
        obtain ⟨hE2, hP2⟩ := ih s2 hrun
        exact ⟨fun x hx => hE2 x (hE x hx), fun x hx => hP2 x (hP x hx)⟩

/-- After a completed run that never reached the sales cap, every processed
message's id is present in the final in-memory ledgers (record side when its
parse succeeds, render side when its render succeeds), and the state
invariant holds at the end. -/
theorem runMsgs_post (msgs : List Message) (s s1 : LoopSt)
    (hids : ∀ m ∈ msgs, jsTrim m.id = m.id ∧ m.id ≠ "")
    (hA : s.processed.Nodup ∧ "" ∉ s.processed ∧
      s.existing = loadExistingMessageIds s.rows)
    (hrun : runMsgs s msgs = .done s1)
    (hcap : s1.sales < MAX_PER_RUN) :
    (s1.processed.Nodup ∧ "" ∉ s1.processed ∧
      s1.existing = loadExistingMessageIds s1.rows) ∧
    ∀ m ∈ msgs, (parsePsaEmailGs m ≠ none → m.id ∈ s1.existing) ∧
      (m.renderOk = true → m.id ∈ s1.processed) := by
  induction msgs generalizing s with
  | nil =>
    obtain rfl : s = s1 := RunRes.done.inj hrun
    exact ⟨hA, by simp⟩
  | cons m ms ih =>
    rw [runMsgs] at hrun
    by_cases hsales : MAX_PER_RUN ≤ s.sales
    · rw [if_pos hsales] at hrun
      obtain rfl : s = s1 := RunRes.done.inj hrun
      exact absurd hsales (Nat.not_le.mpr hcap)
    · rw [if_neg hsales] at hrun
      cases hstep : stepMsg s m with
      | abort s2 =>
        rw [hstep] at hrun
        cases hrun
      | ok s2 =>
        rw [hstep] at hrun
        obtain ⟨hA2, hpe, hpr, _, _⟩ :=
          stepMsg_ok_post s s2 m (hids m (List.mem_cons_self _ _)) hA hstep
        obtain ⟨hA1, hrest⟩ :=
          ih s2 (fun m2 hm2 => hids m2 (List.mem_cons_of_mem _ hm2)) hA2 hrun
        obtain ⟨hmE, hmP⟩ := runMsgs_mono ms s2 s1 hrun
        refine ⟨hA1, ?_⟩
        intro m2 hm2
        rcases List.mem_cons.mp hm2 with rfl | hm2tail
        · exact ⟨fun hp => hmE _ (hpe hp), fun hr => hmP _ (hpr hr)⟩
        · exact hrest m2 hm2tail

/-- When a message's id is already recorded (whenever its parse succeeds) and
already rendered (whenever its render succeeds), the step changes nothing but
the scan counters. -/
theorem stepMsg_noop (R : List SheetRow) (F : List PdfFile) (E P : List String)
    (c1 c2 : ℕ) (m : Message)
    (hpe : parsePsaEmailGs m ≠ none → m.id ∈ E)
    (hpr : m.renderOk = true → m.id ∈ P) :
    ∃ sk2, stepMsg ⟨R, F, E, P, 0, 0, c1, c2⟩ m = .ok ⟨R, F, E, P, 0, 0, c1 + 1, sk2⟩ := by
  by_cases hE : m.id ∈ E <;> by_cases hP : m.id ∈ P
  · exact ⟨c2 + 1, by simp [stepMsg, hE, hP]⟩
  · have hrok : m.renderOk = false := by
      cases hx : m.renderOk
      · rfl
      · exact absurd (hpr hx) hP
    exact ⟨c2, by simp [stepMsg, stepRecord, stepRender, hE, hP, hrok]⟩
  · have hparse : parsePsaEmailGs m = none := by
      cases hx : parsePsaEmailGs m with
      | none => rfl
      | some rec => exact absurd (hpe (by simp [hx])) hE
    exact ⟨c2, by simp [stepMsg, stepRecord, stepRender, hE, hP, hparse]⟩
  · have hrok : m.renderOk = false := by
      cases hx : m.renderOk
      · rfl
      · exact absurd (hpr hx) hP
    have hparse : parsePsaEmailGs m = none := by
      cases hx : parsePsaEmailGs m with
      | none => rfl
      | some rec => exact absurd (hpe (by simp [hx])) hE
    exact ⟨c2, by simp [stepMsg, stepRecord, stepRender, hE, hP, hparse, hrok]⟩

/-- A run in which every message is already settled (recorded whenever it
parses, rendered whenever it renders) completes and leaves the stores, the
ledgers and the sales/pdf counters untouched. -/
theorem runMsgs_fixpoint (msgs : List Message) (R : List SheetRow)
    (F : List PdfFile) (E P : List String) (c1 c2 : ℕ)
    (hpost : ∀ m ∈ msgs, (parsePsaEmailGs m ≠ none → m.id ∈ E) ∧
      (m.renderOk = true → m.id ∈ P)) :
    ∃ sc sk, runMsgs ⟨R, F, E, P, 0, 0, c1, c2⟩ msgs = .done ⟨R, F, E, P, 0, 0, sc, sk⟩ := by
  induction msgs generalizing c1 c2 with
  | nil => exact ⟨c1, c2, rfl⟩
  | cons m ms ih =>
    obtain ⟨hpe, hpr⟩ := hpost m (List.mem_cons_self _ _)
    obtain ⟨sk2, hstep⟩ := stepMsg_noop R F E P c1 c2 m hpe hpr
    obtain ⟨sc, sk, hrest⟩ :=
      ih (c1 + 1) sk2 (fun m2 hm2 => hpost m2 (List.mem_cons_of_mem _ hm2))
    refine ⟨sc, sk, ?_⟩
    rw [runMsgs, if_neg (show ¬ MAX_PER_RUN ≤
      (⟨R, F, E, P, 0, 0, c1, c2⟩ : LoopSt).sales by simp [MAX_PER_RUN]), hstep]
    exact hrest

def msgsC1cex : List Message :=
  (List.range 101).map (fun i =>
    ⟨toString i, "s", "PSA CERT 7 Card Sale Price $1 Proceeds $1", "2024-01-01",
     true, true, false⟩)

set_option maxRecDepth 100000 in
set_option maxHeartbeats 2000000 in
/-- **C1 counterexample.**  With 101 fresh parseable messages (all ids
well-formed, every append and render succeeding) the first run stops at the
`MAX_PER_RUN = 100` sales cap after 100 rows; the second run against the
unchanged source and the stores left by the first run appends one more row —
so a second run does not always append zero rows. -/
theorem c1_counterexample :
    isDone (processPsaSales ⟨[], [], []⟩ msgsC1cex) = true ∧
    (outWorld (processPsaSales ⟨[], [], []⟩ msgsC1cex)).rows.length = 100 ∧
    isDone (processPsaSales (outWorld (processPsaSales ⟨[], [], []⟩ msgsC1cex))
      msgsC1cex) = true ∧
    (outWorld (processPsaSales (outWorld (processPsaSales ⟨[], [], []⟩ msgsC1cex))
      msgsC1cex)).rows.length = 101 := by decide

/-- **C1 amended.**  Provided the first run completed without an uncaught
append exception and without reaching the per-run sales cap, and message ids
equal their trimmed forms and are non-empty, a second run of
`processPsaSales` over the unchanged message source and the stores left by
the first run changes nothing: it returns the same world with zero sales and
zero PDF exports (every recorded id is skipped by the record ledger and every
rendered id by the render ledger; unparseable messages parse to null again
and failed renders fail again, neither producing an artifact). -/
theorem c1_second_run_appends_nothing (w : World) (msgs : List Message)
    (hids : ∀ m ∈ msgs, jsTrim m.id = m.id ∧ m.id ≠ "")
    (w1 : World) (st1 : RunStats)
    (h1 : processPsaSales w msgs = .done w1 st1)
    (hcap : st1.sales < MAX_PER_RUN) :
    ∃ st2 : RunStats, processPsaSales w1 msgs = .done w1 st2 ∧
      st2.sales = 0 ∧ st2.pdfs = 0 := by
  simp only [processPsaSales] at h1
  cases hrun : runMsgs ⟨w.rows, w.files, loadExistingMessageIds w.rows,
      loadProcessedIds w.ledgerRows, 0, 0, 0, 0⟩ msgs with
  | abort s =>
    rw [hrun] at h1
    cases h1
  | done sf =>
    rw [hrun] at h1
    obtain ⟨hw1, hst1⟩ := RunOut.done.inj h1
    have hcapf : sf.sales < MAX_PER_RUN := by
      rw [← hst1] at hcap
      exact hcap
    have hA0 : (loadProcessedIds w.ledgerRows).Nodup ∧
        "" ∉ loadProcessedIds w.ledgerRows ∧
        loadExistingMessageIds w.rows = loadExistingMessageIds w.rows :=
      ⟨loadProcessedIds_nodup _, fun hm => ((mem_loadProcessedIds _ _).mp hm).2 rfl, rfl⟩
    obtain ⟨⟨hnd, hne, hex⟩, hposts⟩ :=
      runMsgs_post msgs _ sf hids ⟨hA0.1, hA0.2.1, hA0.2.2⟩ hrun hcapf
    subst hw1
    have he : loadExistingMessageIds sf.rows = sf.existing := hex.symm
    have hp : loadProcessedIds sf.processed = sf.processed :=
      loadProcessedIds_of_nodup _ hnd hne
    obtain ⟨sc, sk, hfix⟩ :=
      runMsgs_fixpoint msgs sf.rows sf.files sf.existing sf.processed 0 0 hposts
    refine ⟨⟨sc, sk, 0, 0⟩, ?_, rfl, rfl⟩
    simp only [processPsaSales]
    rw [he, hp, hfix]

def outStats : RunOut → RunStats
  | .done _ st => st
  | .aborted _ => ⟨0, 0, 0, 0⟩

def msgC1w : Message :=
  ⟨"idc1", "s", "PSA CERT 7 Card Sale Price $1 Proceeds $1", "2024-01-01",
   true, true, false⟩

/-- Witness for `c1_second_run_appends_nothing`: one healthy message, first
run completes below the cap, second run returns the identical world with zero
sales and zero exports. -/
theorem c1_witness :
    ∃ st2 : RunStats,
      processPsaSales (outWorld (processPsaSales ⟨[], [], []⟩ [msgC1w])) [msgC1w] =
        .done (outWorld (processPsaSales ⟨[], [], []⟩ [msgC1w])) st2 ∧
      st2.sales = 0 ∧ st2.pdfs = 0 :=
  c1_second_run_appends_nothing ⟨[], [], []⟩ [msgC1w] (by decide)
    (outWorld (processPsaSales ⟨[], [], []⟩ [msgC1w]))
    (outStats (processPsaSales ⟨[], [], []⟩ [msgC1w])) rfl (by decide)

/-! ### Revision of claim C2 — the combined processor's runs included -/

/-- State carried by either run outcome. -/
def runResSt : RunRes → LoopSt
  | .done s => s
  | .abort s => s

/-- An aborting step (the unguarded `appendRow` threw) leaves files, the
render set, the rows and the record set exactly as they were. -/
theorem stepMsg_abort_spec (s s2 : LoopSt) (m : Message)
    (h : stepMsg s m = .abort s2) :
    s2.files = s.files ∧ s2.processed = s.processed ∧ s2.rows = s.rows ∧
    s2.existing = s.existing := by
  simp only [stepMsg] at h
  by_cases hskip : (s.existing.contains m.id && s.processed.contains m.id) = true
  · rw [if_pos hskip] at h
    cases h
  · rw [if_neg hskip] at h
    cases hrec : stepRecord { s with scanned := s.scanned + 1 } m with
    | none =>
      rw [hrec] at h
      obtain rfl : _ = s2 := StepRes.abort.inj h
      exact ⟨rfl, rfl, rfl, rfl⟩
    | some s3 =>
      rw [hrec] at h
      cases h

/-- An `ok` step of the combined processor writes at most one file, and the
in-memory render set grows by exactly the source ids of the files written:
an id is added only together with a successful write for this message. -/
theorem stepMsg_render_spec (s s2 : LoopSt) (m : Message)
    (h : stepMsg s m = .ok s2) :
    ∃ new0 : List PdfFile, s2.files = s.files ++ new0 ∧
      (∀ id, id ∈ s2.processed ↔ id ∈ s.processed ∨ id ∈ new0.map PdfFile.srcId) ∧
      (∀ f ∈ new0, m.renderOk = true ∧ f.srcId = m.id ∧
        f.name = buildFileNameGs m) := by
  simp only [stepMsg] at h
  by_cases hskip : (s.existing.contains m.id && s.processed.contains m.id) = true
  · rw [if_pos hskip] at h
    obtain rfl : _ = s2 := StepRes.ok.inj h
    exact ⟨[], by simp, by simp, by simp⟩
  · rw [if_neg hskip] at h
    cases hrec : stepRecord { s with scanned := s.scanned + 1 } m with
    | none =>
      rw [hrec] at h
      cases h
    | some s3 =>
      rw [hrec] at h
      obtain rfl : _ = s2 := StepRes.ok.inj h
      obtain ⟨hp3, hf3, _, _, _, _⟩ :=
        stepRecord_ok_spec { s with scanned := s.scanned + 1 } s3 m hrec
      rcases stepRender_spec s3 m
          ({ s with scanned := s.scanned + 1 }.processed.contains m.id) with
        ⟨hren, _⟩ | ⟨_, hrok, hren⟩
      · rw [hren]
        exact ⟨[], by simp [hf3], by simp [hp3], by simp⟩
      · rw [hren]
        refine ⟨[⟨m.id, buildFileNameGs m⟩], ?_, ?_, ?_⟩
        · simp [hf3]
        · intro id
          simp only []
          rw [mem_setAdd, hp3]
          simp
        · intro f hf
          rcases List.mem_singleton.mp hf with rfl
          exact ⟨hrok, rfl, rfl⟩

/-- Whether the combined processor's message loop completes or aborts, its
files grow by some list of newly written documents, and the in-memory render
set grows by exactly the source ids of those documents, each attributable to
a message of this run whose render-and-write succeeded. -/
theorem runMsgs_render_spec (msgs : List Message) (s : LoopSt) :
    ∃ new : List PdfFile,
      (runResSt (runMsgs s msgs)).files = s.files ++ new ∧
      (∀ id, id ∈ (runResSt (runMsgs s msgs)).processed ↔
        id ∈ s.processed ∨ id ∈ new.map PdfFile.srcId) ∧
      (∀ f ∈ new, ∃ m ∈ msgs, m.renderOk = true ∧ f.srcId = m.id ∧
        f.name = buildFileNameGs m) := by
  induction msgs generalizing s with
  | nil => exact ⟨[], by simp [runMsgs, runResSt], by simp [runMsgs, runResSt], by simp⟩
  | cons m ms ih =>
    by_cases hsales : MAX_PER_RUN ≤ s.sales
    · refine ⟨[], ?_, ?_, by simp⟩ <;> simp [runMsgs, hsales, runResSt]
    · cases hstep : stepMsg s m with
      | abort s2 =>
        have hrm : runMsgs s (m :: ms) = .abort s2 := by
          rw [runMsgs, if_neg hsales, hstep]
        obtain ⟨hf2, hp2, _, _⟩ := stepMsg_abort_spec s s2 m hstep
        refine ⟨[], ?_, ?_, by simp⟩
        · rw [hrm]
          simpa [runResSt] using hf2
        · intro id
          rw [hrm]
          simp [runResSt, hp2]
      | ok s2 =>
        have hrm : runMsgs s (m :: ms) = runMsgs s2 ms := by
          rw [runMsgs, if_neg hsales, hstep]
        obtain ⟨new0, hf0, hp0, hprov0⟩ := stepMsg_render_spec s s2 m hstep
        obtain ⟨new1, hf1, hp1, hprov1⟩ := ih s2
        refine ⟨new0 ++ new1, ?_, ?_, ?_⟩
        · rw [hrm, hf1, hf0, List.append_assoc]
        · intro id
          rw [hrm, hp1 id, hp0 id, List.map_append, List.mem_append]
          tauto
        · intro f hf
          rcases List.mem_append.mp hf with hf0m | hf1m
          · obtain ⟨hrok, hsrc, hname⟩ := hprov0 f hf0m
            exact ⟨m, List.mem_cons_self _ _, hrok, hsrc, hname⟩
          · obtain ⟨m2, hm2, hrest⟩ := hprov1 f hf1m
            exact ⟨m2, List.mem_cons_of_mem _ hm2, hrest⟩

/-- `processPsaSales`, ledger side: a completed run persists exactly the
loaded set plus the ids of the documents written in that run; an aborted run
(uncaught `appendRow` exception) leaves the persisted render ledger
completely unchanged — in particular its in-run writes are never recorded. -/
theorem processPsaSales_render_spec (w : World) (msgs : List Message) :
    (∀ (w1 : World) (st1 : RunStats), processPsaSales w msgs = .done w1 st1 →
      ∃ new : List PdfFile, w1.files = w.files ++ new ∧
        (∀ id, id ∈ w1.ledgerRows ↔
          id ∈ loadProcessedIds w.ledgerRows ∨ id ∈ new.map PdfFile.srcId) ∧
        (∀ f ∈ new, ∃ m ∈ msgs, m.renderOk = true ∧ f.srcId = m.id ∧
          f.name = buildFileNameGs m)) ∧
    (∀ w1 : World, processPsaSales w msgs = .aborted w1 →
      w1.ledgerRows = w.ledgerRows) := by
  constructor
  · intro w1 st1 h1
    simp only [processPsaSales] at h1
    cases hrun : runMsgs ⟨w.rows, w.files, loadExistingMessageIds w.rows,
        loadProcessedIds w.ledgerRows, 0, 0, 0, 0⟩ msgs with
    | abort sf =>
      rw [hrun] at h1
      cases h1
    | done sf =>
      rw [hrun] at h1
      obtain ⟨hw1, _⟩ := RunOut.done.inj h1
      obtain ⟨new, hf, hp, hprov⟩ := runMsgs_render_spec msgs
        ⟨w.rows, w.files, loadExistingMessageIds w.rows,
          loadProcessedIds w.ledgerRows, 0, 0, 0, 0⟩
      rw [hrun] at hf hp
      simp only [runResSt] at hf hp
      subst hw1
      exact ⟨new, hf, hp, hprov⟩
  · intro w1 h1
    simp only [processPsaSales] at h1
    cases hrun : runMsgs ⟨w.rows, w.files, loadExistingMessageIds w.rows,
        loadProcessedIds w.ledgerRows, 0, 0, 0, 0⟩ msgs with
    | done sf =>
      rw [hrun] at h1
      cases h1
    | abort sf =>
      rw [hrun] at h1
      obtain rfl : _ = w1 := RunOut.aborted.inj h1
      rfl

def msgC2ok : Message :=
  ⟨"a2", "s", "PSA CERT 7 C Sale Price $1 Proceeds $1", "2024-01-01",
   true, true, false⟩

def msgC2abort : Message :=
  ⟨"b2x", "s", "PSA CERT 7 C Sale Price $1 Proceeds $1", "2024-01-01",
   false, true, false⟩

/-- **C2 counterexample.**  In the combined processor the claimed
biconditional fails on an aborted run: the first message is fully processed
(its document is written and its id enters the in-memory set), then the
second message's unguarded `sheet.appendRow` throws, so the run ends before
`saveProcessedIds_` — at the end of that run a document for the first
message's id exists, yet the persisted render ledger is still empty. -/
theorem c2_counterexample :
    isDone (processPsaSales ⟨[], [], []⟩ [msgC2ok, msgC2abort]) = false ∧
    (outWorld (processPsaSales ⟨[], [], []⟩ [msgC2ok, msgC2abort])).files.map
      PdfFile.srcId = [msgC2ok.id] ∧
    (outWorld (processPsaSales ⟨[], [], []⟩ [msgC2ok, msgC2abort])).ledgerRows = [] := by
  decide

/-- **C2 amended.**  (a) Starting from an empty folder and an empty ledger,
after any sequence of `exportPsaSalesToPDFs` runs a `sourceMessageId` is in
the persisted render ledger iff a document with that source id was written
during one of those runs (in that script every run completes: each message's
work is inside its `try`); (b) within any single such run the files grow by
some list `new` and the ledger's membership grows by exactly the ids of
`new`, each coming from a message whose render-and-write succeeded — an id
is never added before its write succeeds; (c) when every message carrying an
id fails to render, an id absent from the loaded ledger is still absent
afterwards (the failed message is retried by a future run); (d) in the
combined processor a *completed* run persists exactly the loaded set plus
the ids of the documents written in that run, again never adding an id
without a successful write; but (e) a run of the combined processor aborted
by the unguarded `appendRow` leaves the persisted render ledger unchanged,
so — per the counterexample — a document written earlier in that aborted run
is missing from the ledger at the end of the run, and the claimed
biconditional holds only for completed runs. -/
theorem c2_render_ledger_iff_written (runs : List (List Message))
    (hids : ∀ r ∈ runs, ∀ m ∈ r, m.id ≠ "") :
    (∀ id, id ∈ (runs.foldl exportPsaSalesToPDFs ⟨[], []⟩).ledgerRows ↔
      ∃ f ∈ (runs.foldl exportPsaSalesToPDFs ⟨[], []⟩).files, f.srcId = id) ∧
    (∀ (w : PdfWorld) (msgs : List Message), ∃ new : List PdfFile,
      (exportPsaSalesToPDFs w msgs).files = w.files ++ new ∧
      (∀ id, id ∈ (exportPsaSalesToPDFs w msgs).ledgerRows ↔
        id ∈ loadProcessedIds w.ledgerRows ∨ id ∈ new.map PdfFile.srcId) ∧
      (∀ f ∈ new, ∃ m ∈ msgs, m.renderOk = true ∧ f.srcId = m.id ∧
        f.name = buildFileNameJs m)) ∧
    (∀ (w : PdfWorld) (msgs : List Message) (id : String),
      (∀ m ∈ msgs, m.id = id → m.renderOk = false) →
      id ∉ loadProcessedIds w.ledgerRows →
      id ∉ (exportPsaSalesToPDFs w msgs).ledgerRows) ∧
    (∀ (w : World) (msgs : List Message) (w1 : World) (st1 : RunStats),
      processPsaSales w msgs = .done w1 st1 →
      ∃ new : List PdfFile, w1.files = w.files ++ new ∧
        (∀ id, id ∈ w1.ledgerRows ↔
          id ∈ loadProcessedIds w.ledgerRows ∨ id ∈ new.map PdfFile.srcId) ∧
        (∀ f ∈ new, ∃ m ∈ msgs, m.renderOk = true ∧ f.srcId = m.id ∧
          f.name = buildFileNameGs m)) ∧
    (∀ (w : World) (msgs : List Message) (w1 : World),
      processPsaSales w msgs = .aborted w1 → w1.ledgerRows = w.ledgerRows) := by
  refine ⟨(exportRuns_inv runs ⟨[], []⟩ hids (by simp) (by simp)).1, exportRun_spec, ?_,
    fun w msgs => (processPsaSales_render_spec w msgs).1,
    fun w msgs => (processPsaSales_render_spec w msgs).2⟩
  intro w msgs id hfail hnot hmem
  obtain ⟨new, _, h2, h3⟩ := exportRun_spec w msgs
  rcases (h2 id).mp hmem with h | hmap
  · exact hnot h
  · obtain ⟨f, hf, hid⟩ := List.mem_map.mp hmap
    obtain ⟨m, hm, hrok, hsrc, _⟩ := h3 f hf
    have : m.id = id := hsrc ▸ hid
    rw [hfail m hm this] at hrok
    cases hrok

def msgC2a : Message := ⟨"a1", "s", "", "2024-01-01", true, true, false⟩
def msgC2b : Message := ⟨"b2", "s", "", "2024-01-01", true, false, false⟩

/-- Witness for `c2_render_ledger_iff_written` on one export run with one
successful and one failing render. -/
theorem c2_witness :
    (∀ id, id ∈ ([[msgC2a, msgC2b]].foldl exportPsaSalesToPDFs ⟨[], []⟩).ledgerRows ↔
      ∃ f ∈ ([[msgC2a, msgC2b]].foldl exportPsaSalesToPDFs ⟨[], []⟩).files, f.srcId = id) ∧
    (∀ (w : PdfWorld) (msgs : List Message), ∃ new : List PdfFile,
      (exportPsaSalesToPDFs w msgs).files = w.files ++ new ∧
      (∀ id, id ∈ (exportPsaSalesToPDFs w msgs).ledgerRows ↔
        id ∈ loadProcessedIds w.ledgerRows ∨ id ∈ new.map PdfFile.srcId) ∧
      (∀ f ∈ new, ∃ m ∈ msgs, m.renderOk = true ∧ f.srcId = m.id ∧
        f.name = buildFileNameJs m)) ∧
    (∀ (w : PdfWorld) (msgs : List Message) (id : String),
      (∀ m ∈ msgs, m.id = id → m.renderOk = false) →
      id ∉ loadProcessedIds w.ledgerRows →
      id ∉ (exportPsaSalesToPDFs w msgs).ledgerRows) ∧
    (∀ (w : World) (msgs : List Message) (w1 : World) (st1 : RunStats),
      processPsaSales w msgs = .done w1 st1 →
      ∃ new : List PdfFile, w1.files = w.files ++ new ∧
        (∀ id, id ∈ w1.ledgerRows ↔
          id ∈ loadProcessedIds w.ledgerRows ∨ id ∈ new.map PdfFile.srcId) ∧
        (∀ f ∈ new, ∃ m ∈ msgs, m.renderOk = true ∧ f.srcId = m.id ∧
          f.name = buildFileNameGs m)) ∧
    (∀ (w : World) (msgs : List Message) (w1 : World),
      processPsaSales w msgs = .aborted w1 → w1.ledgerRows = w.ledgerRows) :=
  c2_render_ledger_iff_written [[msgC2a, msgC2b]] (by decide)
